import Mathlib

/-!
Verification of the uplc-viewer core logic.

Shallow embedding of the repository's TypeScript sources:
  * `src/webapp/src/lib/uplcUtils.ts` (hex normalizer, CBOR byte-string
    framer, version extractor, encode/parse pipeline),
  * `src/webapp/src/lib/languageDetection.ts` (marker tables, marker
    scanner, structural plu-ts matcher, ordered classifier chain),
  * the application orchestrator (`handleProcess` in `App.tsx`).

JavaScript strings are modelled as `List Char` (sequences of code points;
all relevant characters are in the BMP, where code points coincide with
UTF-16 units).  Byte buffers (`Uint8Array`) are modelled as `List Nat`
whose entries are below 256; JavaScript 32-bit operators (`>>>`, `&`) are
modelled with explicit `% 2 ^ 32` arithmetic.  Fallible code returns
`Except`/`Option`.  External library functions from `@harmoniclabs/uplc`
and `@harmoniclabs/uint8array-utils` (text parser, pretty printer,
bit-packed compiler, CBOR decoder) are either taken as explicit function
parameters or, where their behaviour is simple and fixed (hex encode and
decode, `UPLCVersion.fromString` on digit strings), modelled directly.
-/

/-! ## Character and string primitives -/

/-- Characters matched by the JavaScript regular-expression class `\s`
(and removed by `String.prototype.trim`), given by code point: tab, line
feed, vertical tab, form feed, carriage return, space, no-break space,
ogham space mark, the en-quad..hair-space range, line separator,
paragraph separator, narrow no-break space, medium mathematical space,
ideographic space, and the byte-order mark. -/
def isJsWs (c : Char) : Bool :=
  let n := c.toNat
  n == 9 || n == 10 || n == 11 || n == 12 || n == 13 || n == 32 ||
  n == 0xa0 || n == 0x1680 || (0x2000 ≤ n && n ≤ 0x200a) ||
  n == 0x2028 || n == 0x2029 || n == 0x202f || n == 0x205f ||
  n == 0x3000 || n == 0xfeff

/-- Removal of every whitespace character, the effect of
`s.replace(/\s+/g, "")` (also of `s.trim().replace(/\s+/g, "")`: the
leading `trim` removes a subset of what the global replace removes). -/
def stripWs (l : List Char) : List Char :=
  l.filter (fun c => !isJsWs c)

/-- JavaScript `String.prototype.trim`: drop whitespace from both ends. -/
def jsTrim (l : List Char) : List Char :=
  ((l.dropWhile isJsWs).reverse.dropWhile isJsWs).reverse

/-- JavaScript `String.prototype.startsWith`. -/
def beginsWith : List Char → List Char → Bool
  | _, [] => true
  | [], _ :: _ => false
  | c :: cs, p :: ps => c == p && beginsWith cs ps

/-- JavaScript `String.prototype.includes`: `needle` occurs as a
contiguous substring of `hay`. -/
def containsSub (hay needle : List Char) : Bool :=
  match hay with
  | [] => needle.isEmpty
  | _ :: t => beginsWith hay needle || containsSub t needle

/-- ASCII lower-casing, the effect of `String.prototype.toLowerCase` on
the ASCII strings this code applies it to. -/
def asciiToLower (c : Char) : Char :=
  if 65 ≤ c.toNat && c.toNat ≤ 90 then Char.ofNat (c.toNat + 32) else c

/-- Membership in the regular-expression class `[0-9a-fA-F]`. -/
def isHexChar (c : Char) : Bool :=
  (48 ≤ c.toNat && c.toNat ≤ 57) || (97 ≤ c.toNat && c.toNat ≤ 102) ||
  (65 ≤ c.toNat && c.toNat ≤ 70)

/-- Membership in the regular-expression class `\d`. -/
def isAsciiDigit (c : Char) : Bool :=
  48 ≤ c.toNat && c.toNat ≤ 57

/-- Numeric value of a decimal digit string (the effect of the external
`UPLCVersion.fromString` component parse on a `\d+` token, which cannot
fail on such a token). -/
def digitsToNat (l : List Char) : Nat :=
  l.foldl (fun a c => a * 10 + (c.toNat - 48)) 0

/-- JavaScript `String.prototype.lastIndexOf` for a single character. -/
def lastIdxOf (c : Char) : List Char → Option Nat
  | [] => none
  | x :: xs =>
    match lastIdxOf c xs with
    | some i => some (i + 1)
    | none => if x == c then some 0 else none

/-! ## ParseError and the hex normalizer (`uplcUtils.ts` lines 114-131) -/

/-- The `ParseError` class: a typed error carrying a message. -/
structure ParseErr where
  msg : List Char
deriving DecidableEq

def hexEmptyMsg : List Char := ("The CBOR hex string is empty.").toList

def hexNonHexMsg : List Char :=
  ("The CBOR input contains non-hexadecimal characters.").toList

def hexOddMsg : List Char :=
  ("Hex strings must contain an even number of characters.").toList

/-- Lines 115-116 of `uplcUtils.ts`: whitespace removal followed by the
one-time strip of a leading `0x`/`0X`. -/
def hexRemainder (input : List Char) : List Char :=
  let trimmed := stripWs input
  if beginsWith trimmed ("0x").toList || beginsWith trimmed ("0X").toList then
    trimmed.drop 2
  else trimmed

/-- `normalizeHex` (`uplcUtils.ts` lines 114-131).  The regular
expression `/^[0-9a-fA-F]+$/.test` is equivalent, on the already
non-empty remainder, to every character being a hex digit. -/
def normalizeHex (input : List Char) : Except ParseErr (List Char) :=
  let r := hexRemainder input
  if r.isEmpty then .error ⟨hexEmptyMsg⟩
  else if !(r.all isHexChar) then .error ⟨hexNonHexMsg⟩
  else if r.length % 2 != 0 then .error ⟨hexOddMsg⟩
  else .ok (r.map asciiToLower)

/-! ## Hex encoding and decoding (`@harmoniclabs/uint8array-utils`)

`toHex` renders each byte as two lowercase hex digits; `fromHex` inverts
this on even-length hex strings.  These external collaborators are small
and fixed, so they are modelled directly. -/

def hexDigitChar (n : Nat) : Char :=
  if n < 10 then Char.ofNat (48 + n) else Char.ofNat (87 + n)

/-- Hex rendering of a byte buffer (`toHex`). -/
def toHexL (bs : List Nat) : List Char :=
  bs.foldr (fun b acc => hexDigitChar (b / 16 % 16) :: hexDigitChar (b % 16) :: acc) []

/-- Value of one hex digit character. -/
def hexVal (c : Char) : Option Nat :=
  if 48 ≤ c.toNat && c.toNat ≤ 57 then some (c.toNat - 48)
  else if 97 ≤ c.toNat && c.toNat ≤ 102 then some (c.toNat - 87)
  else if 65 ≤ c.toNat && c.toNat ≤ 70 then some (c.toNat - 55)
  else none

/-- Hex parsing of a byte buffer (`fromHex`); fails on odd length or
non-hex characters. -/
def fromHexL : List Char → Option (List Nat)
  | [] => some []
  | [_] => none
  | c1 :: c2 :: rest =>
    match hexVal c1, hexVal c2, fromHexL rest with
    | some v1, some v2, some bs => some ((v1 * 16 + v2) :: bs)
    | _, _, _ => none

/-- `hexStringToBytes` (`uplcUtils.ts` lines 103-112): normalize, then
decode; a decode failure (unreachable after successful normalization) is
re-wrapped as a `ParseError`. -/
def hexStringToBytes (input : List Char) : Except ParseErr (List Nat) :=
  match normalizeHex input with
  | .error pe => .error pe
  | .ok normalized =>
    match fromHexL normalized with
    | none => .error ⟨("Invalid hex string.").toList⟩
    | some bytes => .ok bytes

/-! ## The CBOR byte-string framer (`uplcUtils.ts` lines 133-169) -/

/-- JavaScript `ToUint32`, applied by `>>>` to its left operand. -/
def toUint32 (n : Nat) : Nat := n % 4294967296

/-- `wrapBytesAsCbor` (`uplcUtils.ts` lines 133-169).  `length >> 8`,
`length >>> k` and `& 0xff` on a non-negative `length` below `2 ^ 53`
are division and `% 256` after reduction `% 2 ^ 32` (for `>>>`); for the
two- and three-byte headers `length` is already below `2 ^ 16`, where the
reduction is the identity. -/
def wrapBytesAsCbor (bytes : List Nat) : List Nat :=
  let length := bytes.length
  if length ≤ 23 then
    (0x40 + length) :: bytes
  else if length ≤ 0xff then
    0x58 :: length :: bytes
  else if length ≤ 0xffff then
    0x59 :: (length / 256 % 256) :: (length % 256) :: bytes
  else
    0x5a :: (toUint32 length / 2 ^ 24 % 256) :: (toUint32 length / 2 ^ 16 % 256) ::
      (toUint32 length / 2 ^ 8 % 256) :: (length % 256) :: bytes

/-! ## Versions and the version extractor (`uplcUtils.ts` lines 39-58) -/

/-- A UPLC version triple. -/
structure UPLCVersion where
  major : Nat
  minor : Nat
  patch : Nat
deriving DecidableEq

/-- The external library's fixed default version constant
(`defaultUplcVersion` from `@harmoniclabs/uplc`); the development only
relies on it being a fixed constant. -/
def defaultUplcVersion : UPLCVersion := ⟨1, 1, 0⟩

def versionUnreadableMsg : List Char :=
  ("Unable to read the program version from the input.").toList

/-- Candidate matches of `\d+` against the front of a string, in the
greedy (longest-first) order in which a backtracking regex engine tries
them.  `rd` is the reversed maximal digit run still available and `rest`
is the input following it; each step moves the run's last digit back onto
`rest`. -/
def splitsAux : List Char → List Char → List (List Char × List Char)
  | [], _ => []
  | c :: rd, rest => (((c :: rd).reverse), rest) :: splitsAux rd (c :: rest)

/-- All ways `\d+` can match a leading portion of `l`, longest first. -/
def digitSplits (l : List Char) : List (List Char × List Char) :=
  splitsAux (l.takeWhile isAsciiDigit).reverse (l.drop (l.takeWhile isAsciiDigit).length)

/-- Tuple constructor for the three captured digit groups. -/
def mvOut (d1 d2 d3 : List Char) : List Char × List Char × List Char :=
  (d1, d2, d3)

/-- Third stage of the regex `/^(\d+\.\d+\.\d+)(?!\.)/`: match the
final `\d+` (longest first, backtracking on demand) and apply the
negative lookahead `(?!\.)`: the candidate is rejected when the
remainder starts with a dot. -/
def mvLevel3 (d1 d2 t2 : List Char) : Option (List Char × List Char × List Char) :=
  (digitSplits t2).findSome? fun p3 =>
    match p3.2 with
    | '.' :: _ => none
    | _ => some (mvOut d1 d2 p3.1)

/-- Second stage: match the middle `\d+` followed by a literal dot. -/
def mvLevel2 (d1 t1 : List Char) : Option (List Char × List Char × List Char) :=
  (digitSplits t1).findSome? fun p2 =>
    match p2.2 with
    | '.' :: t2 => mvLevel3 d1 p2.1 t2
    | _ => none

/-- The JavaScript regular expression `/^(\d+\.\d+\.\d+)(?!\.)/` of
`uplcUtils.ts` line 47, embedded with its backtracking semantics: each
`\d+` prefers the longest match and backtracks on demand (the ordered
candidate lists of `digitSplits`), the literal dots must follow, and the
negative lookahead requires that the character following the third digit
group not be a dot.  Returns the three captured digit groups. -/
def matchVersionTriple (l : List Char) : Option (List Char × List Char × List Char) :=
  (digitSplits l).findSome? fun p1 =>
    match p1.2 with
    | '.' :: t1 => mvLevel2 p1.1 t1
    | _ => none

/-- Lines 45-46 of `uplcUtils.ts`: the content between the header token
and the final closing parenthesis (or the rest of the string when there
is no closing parenthesis), trimmed. -/
def innerContent (source : List Char) : List Char :=
  let trimmed := jsTrim source
  jsTrim (match lastIdxOf ')' trimmed with
    | some i => (trimmed.take i).drop 8
    | none => trimmed.drop 8)

/-- `detectVersionFromSource` (`uplcUtils.ts` lines 39-58).  The final
`UPLCVersion.fromString` is modelled as the numeric parse of the three
captured `\d+` groups, on which it cannot fail, so the code's second
`ParseError` branch is unreachable. -/
def detectVersionFromSource (source : List Char) : Except ParseErr UPLCVersion :=
  let trimmed := jsTrim source
  if beginsWith trimmed (("(program").toList) then
    match matchVersionTriple (innerContent source) with
    | none => .error ⟨versionUnreadableMsg⟩
    | some (d1, d2, d3) => .ok ⟨digitsToNat d1, digitsToNat d2, digitsToNat d3⟩
  else .ok defaultUplcVersion

/-! ## The UPLC term model (`@harmoniclabs/uplc` term classes)

Exactly the structure the detection code inspects: `Lambda` (field
`body`), `Case` (fields `constrTerm`, `continuations`), `Constr` (fields
`index`, `terms`), `UPLCConst` (fields `type`, `value`); every other
term class (variable, application, delay, force, builtin, error) is
inert for `isPlutsTerm` and is represented by its own constructor. -/

/-- Constant type tags; only equality with the integer tag matters. -/
inductive ConstTy where
  | int : ConstTy
  | other : Nat → ConstTy
deriving DecidableEq

/-- Constant values: a `bigint` payload or any non-`bigint` payload. -/
inductive ConstVal where
  | vInt : Int → ConstVal
  | vNonInt : ConstVal
deriving DecidableEq

inductive UPLCTerm where
  | var : Nat → UPLCTerm
  | lam : UPLCTerm → UPLCTerm
  | app : UPLCTerm → UPLCTerm → UPLCTerm
  | delay : UPLCTerm → UPLCTerm
  | force : UPLCTerm → UPLCTerm
  | uconst : ConstTy → ConstVal → UPLCTerm
  | builtin : Nat → UPLCTerm
  | errorTerm : UPLCTerm
  | constr : Nat → List UPLCTerm → UPLCTerm
  | case : UPLCTerm → List UPLCTerm → UPLCTerm

/-- `constTypeEq` from the library: structural equality of type tags. -/
def constTypeEq (a b : ConstTy) : Bool := a == b

/-! ## Language detection (`languageDetection.ts`) -/

inductive DetectedLanguage where
  | aiken | plutarch | opshin | plutusTx | pluts | helios
deriving DecidableEq

structure MarkerEvidence where
  markers : List (List Char)
  totalMatches : Nat
deriving DecidableEq

inductive DetectionEvidence where
  | marker : MarkerEvidence → DetectionEvidence
  | structural : List Char → DetectionEvidence
deriving DecidableEq

structure LanguagePrediction where
  language : DetectedLanguage
  evidence : DetectionEvidence
deriving DecidableEq

def MARKER_SAMPLE_LIMIT : Nat := 5

def aikenMarkers : List (List Char) :=
  [ ("delay[(error)(force(error))]").toList,
    ("List/Tuple/Constrcontainsmoreitemsthanexpected").toList,
    ("ExpectednoitemsforList").toList,
    ("ExpectednofieldsforConstr").toList,
    ("ExpectedonincorrectBooleanvariant").toList,
    ("ExpectedonincorrectConstrvariant").toList,
    ("Constrindexdidn\x27tmatchatypevariant").toList,
    ("(force(builtinmkCons))])(force(builtinheadList))])(force(builtintailList))").toList ]

def plutarchMarkers : List (List Char) :=
  [ ("constring\"can\x27tgetanycontinuingoutputs").toList,
    ("constring\"PatternmatchingfailureinQualifiedDosyntax").toList,
    ("constring\"reachedendofsumwhilestill").toList,
    ("constring\"PatternmatchingfailureinTermCont").toList,
    ("constring\"ptryPositive").toList,
    ("constring\"pfromJust").toList,
    ("constring\"pelemAt").toList,
    ("constring\"ptryFrom(TxId)").toList,
    ("constring\"ptryFrom(POSIXTime)").toList,
    ("constring\"ptryFrom(TokenName)").toList,
    ("constring\"ptryFrom(CurrencySymbol)").toList,
    ("constring\"ptryFrom(PDataRecord[])").toList,
    ("constring\"ptryFrom(PScriptHash)").toList,
    ("constring\"ptryFrom(PPubKeyHash)").toList,
    ("constring\"ptryFrom(PRational)").toList,
    ("constring\"unsorted map").toList,
    ("(force(builtinheadList))])(force(builtintailList))])(lami_0[i_2[(builtinunConstrData)i_1]])])(force(force(builtinsndPair)))").toList,
    ("(force(builtintailList))])(force(builtinheadList))])(lami_0[i_2[(builtinunConstrData)i_1]])])(force(force(builtinsndPair)))").toList,
    ("Patternmatchfailurein").toList,
    ("Plutarch").toList ]

def opshinMarkers : List (List Char) :=
  [ ("constring\"KeyError\"").toList,
    ("constring\"NameError:").toList,
    ("constring\"ValueError:datumintegritycheckfailed\"").toList ]

def heliosMarkers : List (List Char) :=
  [ ("validationreturnedfalse").toList,
    ("force(builtinifThenElse))[[(builtinequalsInteger)[(force(force(builtinfstPair)))[(builtinunConstrData)").toList ]

def plutusTxMarkers : List (List Char) :=
  [ ("constring\"L0\"").toList, ("constring\"L1\"").toList,
    ("constring\"L2\"").toList, ("constring\"L3\"").toList,
    ("constring\"L4\"").toList, ("constring\"L5\"").toList,
    ("constring\"L6\"").toList, ("constring\"L7\"").toList,
    ("constring\"L8\"").toList, ("constring\"L9\"").toList,
    ("constring\"La\"").toList, ("constring\"Lb\"").toList,
    ("constring\"Lc\"").toList, ("constring\"Ld\"").toList,
    ("constring\"Le\"").toList, ("constring\"Lf\"").toList,
    ("constring\"Lg\"").toList, ("constring\"Lh\"").toList,
    ("constring\"Li\"").toList, ("constring\"PT1\"").toList,
    ("constring\"PT2\"").toList, ("constring\"PT3\"").toList,
    ("constring\"PT4\"").toList, ("constring\"PT5\"").toList,
    ("constring\"PT6\"").toList, ("constring\"PT7\"").toList,
    ("constring\"PT8\"").toList, ("constring\"PT9\"").toList,
    ("constring\"PT10\"").toList, ("constring\"PT11\"").toList,
    ("constring\"PT12\"").toList, ("constring\"PT13\"").toList,
    ("constring\"PT14\"").toList, ("constring\"PT15\"").toList,
    ("constring\"PT16\"").toList, ("constring\"PT17\"").toList,
    ("constring\"PT18\"").toList, ("constring\"Pa\"").toList,
    ("constring\"Pb\"").toList, ("constring\"Pc\"").toList,
    ("constring\"Pd\"").toList, ("constring\"Pe\"").toList,
    ("constring\"Pf\"").toList, ("constring\"Pg\"").toList,
    ("constring\"S0\"").toList, ("constring\"S1\"").toList,
    ("constring\"S2\"").toList, ("constring\"S3\"").toList,
    ("constring\"S4\"").toList, ("constring\"S5\"").toList,
    ("constring\"S6\"").toList, ("constring\"S7\"").toList,
    ("constring\"S8\"").toList, ("constring\"C0\"").toList,
    ("constring\"C1\"").toList,
    ("41786f4f7261636c655631").toList,
    ("41756374696f6e457363726f7").toList ]

/-- `normalizeProgram` (`languageDetection.ts` lines 184-186). -/
def normalizeProgram (input : List Char) : List Char := stripWs input

/-- The loop of `collectMarkerEvidence` (`languageDetection.ts` lines
192-208): running total of matches and capped sample list. -/
def markerLoop (prog : List Char) : List (List Char) → Nat → List (List Char) → Nat × List (List Char)
  | [], total, samples => (total, samples)
  | m :: rest, total, samples =>
    let nm := stripWs m
    if nm.isEmpty then markerLoop prog rest total samples
    else if containsSub prog nm then
      markerLoop prog rest (total + 1)
        (if samples.length < MARKER_SAMPLE_LIMIT then samples ++ [nm] else samples)
    else markerLoop prog rest total samples

/-- `collectMarkerEvidence` (`languageDetection.ts` lines 188-219). -/
def collectMarkerEvidence (prog : List Char) (markers : List (List Char)) : Option MarkerEvidence :=
  let r := markerLoop prog markers 0 []
  if r.1 = 0 then none else some ⟨r.2, r.1⟩

/-- `isPlutsTerm` (`languageDetection.ts` lines 221-255): unwrap lambda
chains; the first case expression must scrutinize a zero-index,
zero-field constructor, have exactly two continuations, and its final
continuation (`continuations[continuations.length - 1]`) must be an
integer-typed constant whose `bigint` value is 42. -/
def isPlutsTerm : UPLCTerm → Bool
  | .case scrut conts =>
    (match scrut with
     | .constr idx fields =>
       idx == 0 && fields.isEmpty &&
       (match conts with
        | [_, lastBranch] =>
          (match lastBranch with
           | .uconst ty v =>
             constTypeEq ty .int && (match v with
               | .vInt n => n == 42
               | .vNonInt => false)
           | _ => false)
        | _ => false)
     | _ => false)
  | .lam body => isPlutsTerm body
  | _ => false

def plutsDetail : List Char :=
  ("Matches the Plu-ts two-branch case structure with the sentinel integer 42.").toList

/-- `predictLanguage` (`languageDetection.ts` lines 139-182): empty-text
guard, then the fixed classifier chain aiken, plu-ts (structural),
helios, plutus-tx, opshin, plutarch, first match winning. -/
def predictLanguage (term : UPLCTerm) (programText : List Char) : Option LanguagePrediction :=
  let normalized := normalizeProgram programText
  if normalized.isEmpty then none
  else
    match collectMarkerEvidence normalized aikenMarkers with
    | some ev => some ⟨.aiken, .marker ev⟩
    | none =>
      if isPlutsTerm term then some ⟨.pluts, .structural plutsDetail⟩
      else
        match collectMarkerEvidence normalized heliosMarkers with
        | some ev => some ⟨.helios, .marker ev⟩
        | none =>
          match collectMarkerEvidence normalized plutusTxMarkers with
          | some ev => some ⟨.plutusTx, .marker ev⟩
          | none =>
            match collectMarkerEvidence normalized opshinMarkers with
            | some ev => some ⟨.opshin, .marker ev⟩
            | none =>
              match collectMarkerEvidence normalized plutarchMarkers with
              | some ev => some ⟨.plutarch, .marker ev⟩
              | none => none

/-- The marker table each language's classifier scans (the structural
plu-ts classifier scans none). -/
def markerTable : DetectedLanguage → List (List Char)
  | .aiken => aikenMarkers
  | .plutarch => plutarchMarkers
  | .opshin => opshinMarkers
  | .plutusTx => plutusTxMarkers
  | .pluts => []
  | .helios => heliosMarkers

/-- The classifier chain of `predictLanguage` as a list of classifier
outcomes, in evaluation order. -/
def chainResults (t : UPLCTerm) (norm : List Char) : List (Option LanguagePrediction) :=
  [ (collectMarkerEvidence norm aikenMarkers).map (fun ev => ⟨.aiken, .marker ev⟩),
    if isPlutsTerm t then some ⟨.pluts, .structural plutsDetail⟩ else none,
    (collectMarkerEvidence norm heliosMarkers).map (fun ev => ⟨.helios, .marker ev⟩),
    (collectMarkerEvidence norm plutusTxMarkers).map (fun ev => ⟨.plutusTx, .marker ev⟩),
    (collectMarkerEvidence norm opshinMarkers).map (fun ev => ⟨.opshin, .marker ev⟩),
    (collectMarkerEvidence norm plutarchMarkers).map (fun ev => ⟨.plutarch, .marker ev⟩) ]

/-! ## Programs, encodings and the dual-path orchestrator
(`uplcUtils.ts` lines 60-101, `App.tsx` `handleProcess`)

The external collaborators — grammar parser `parseUPLCText`, pretty
printer `prettyUPLC`, bit-packed compiler `compileUPLC` and CBOR decoder
`UPLCDecoder.parse` — are taken as explicit function parameters.  Thrown
errors are modelled as `Except` errors carrying the message string. -/

structure UPLCProgram where
  version : UPLCVersion
  body : UPLCTerm

structure TextParseOutput where
  term : UPLCTerm
  version : UPLCVersion
  pretty : List Char

structure ProgramEncoding where
  program : UPLCProgram
  flatBytes : List Nat
  flatHex : List Char
  cborBytes : List Nat
  cborHex : List Char

structure CborParseOutput extends ProgramEncoding where
  pretty : List Char
  version : UPLCVersion

/-- `parseTextSource` (`uplcUtils.ts` lines 60-71): external text parse,
version detection, trimmed pretty rendering; any failure message is
re-wrapped unchanged into a `ParseError`. -/
def parseTextSource (parseText : List Char → Except (List Char) UPLCTerm)
    (prettyFn : UPLCTerm → List Char) (source : List Char) :
    Except (List Char) TextParseOutput :=
  match parseText source with
  | .error m => .error m
  | .ok term =>
    match detectVersionFromSource source with
    | .error pe => .error pe.msg
    | .ok version => .ok ⟨term, version, jsTrim (prettyFn term)⟩

/-- `encodeProgram` (`uplcUtils.ts` lines 73-82); `compileFn` models
`compileUPLC (new UPLCProgram(version, term))` followed by `toBuffer`. -/
def encodeProgram (compileFn : UPLCVersion → UPLCTerm → List Nat)
    (term : UPLCTerm) (version : UPLCVersion) : ProgramEncoding :=
  let flatBytes := compileFn version term
  let cborBytes := wrapBytesAsCbor flatBytes
  ⟨⟨version, term⟩, flatBytes, toHexL flatBytes, cborBytes, toHexL cborBytes⟩

/-- `parseCborHex` (`uplcUtils.ts` lines 84-101): hex decoding happens
outside the try block, so its `ParseError` propagates unchanged (here:
its message); decoder failures are re-wrapped with their message. -/
def parseCborHex (compileFn : UPLCVersion → UPLCTerm → List Nat)
    (decodeFn : List Nat → Except (List Char) UPLCProgram)
    (prettyFn : UPLCTerm → List Char) (input : List Char) :
    Except (List Char) CborParseOutput :=
  match hexStringToBytes input with
  | .error pe => .error pe.msg
  | .ok bytes =>
    match decodeFn bytes with
    | .error m => .error m
    | .ok prog =>
      .ok { toProgramEncoding := encodeProgram compileFn prog.body prog.version,
            pretty := jsTrim (prettyFn prog.body),
            version := prog.version }

inductive SourceKind where
  | text | cbor
deriving DecidableEq

/-- The fields of `ViewerResult` that the orchestrator fills in (the
`compact` field read by the view is absent from `TextParseOutput` and
`CborParseOutput` and so always undefined; it is omitted here). -/
structure ViewerResult where
  kind : SourceKind
  version : List Char
  pretty : List Char
  flatHex : List Char
  flatLength : Nat
  cborHex : List Char
  cborLength : Nat

/-- `versionToString` (`uplcUtils.ts` lines 171-173), the external
`UPLCVersion.toString`: the dot-joined decimal triple. -/
def versionToChars (v : UPLCVersion) : List Char :=
  Nat.toDigits 10 v.major ++ '.' :: Nat.toDigits 10 v.minor ++ '.' :: Nat.toDigits 10 v.patch

/-- Observable outcome of one `handleProcess` run: the empty-input
prompt, a successful result, or a single combined error message. -/
inductive HandleOutcome where
  | prompt : List Char → HandleOutcome
  | success : ViewerResult → HandleOutcome
  | failure : List Char → HandleOutcome

def emptyInputMsg : List Char :=
  ("Paste a UPLC program or its CBOR hex representation to begin.").toList

def textFailLabel : List Char := ("Failed to parse as UPLC text: ").toList

def cborFailLabel : List Char := ("Failed to parse as CBOR hex: ").toList

/-- `handleProcess` (`App.tsx` lines 53-107): trim; reject empty input;
try the text path and return on success; otherwise try the CBOR path;
on double failure report the two labelled messages joined by a single
space.  (`textError ?? "unknown error."` is modelled by the captured
message, which is always set on the failure path.) -/
def handleProcess (parseText : List Char → Except (List Char) UPLCTerm)
    (prettyFn : UPLCTerm → List Char)
    (compileFn : UPLCVersion → UPLCTerm → List Nat)
    (decodeFn : List Nat → Except (List Char) UPLCProgram)
    (input : List Char) : HandleOutcome :=
  let trimmed := jsTrim input
  if trimmed.isEmpty then .prompt emptyInputMsg
  else
    match parseTextSource parseText prettyFn trimmed with
    | .ok parsed =>
      let encoding := encodeProgram compileFn parsed.term parsed.version
      .success ⟨.text, versionToChars parsed.version, parsed.pretty,
        encoding.flatHex, encoding.flatBytes.length,
        encoding.cborHex, encoding.cborBytes.length⟩
    | .error textError =>
      match parseCborHex compileFn decodeFn prettyFn trimmed with
      | .ok parsed =>
        .success ⟨.cbor, versionToChars parsed.version, parsed.pretty,
          parsed.flatHex, parsed.flatBytes.length,
          parsed.cborHex, parsed.cborBytes.length⟩
      | .error cborMessage =>
        .failure (textFailLabel ++ textError ++ ' ' :: (cborFailLabel ++ cborMessage))

/-! ## Specification-side definitions

These definitions follow the specification's words, not the source; each
is compared against the source-derived definitions by a theorem. -/

/-- Specification shape for the structural plu-ts classifier: a chain of
outer lambdas over a case expression on a zero-index, zero-field
constructor with exactly two branches whose final branch is the
integer-typed constant 42. -/
inductive PlutsShape : UPLCTerm → Prop
  | base (b : UPLCTerm) :
      PlutsShape (.case (.constr 0 []) [b, .uconst .int (.vInt 42)])
  | lam {b : UPLCTerm} : PlutsShape b → PlutsShape (.lam b)

/-- Specification wording (amended claim), third group: the third digit
group is the maximal leading digit run when no dot follows it; when a
dot follows, it is that run shortened by its final digit, which requires
the run to have at least two digits; a one-digit run followed by a dot
admits no match. -/
def specLevel3 (r1 r2 t2 : List Char) : Option (List Char × List Char × List Char) :=
  match t2.takeWhile isAsciiDigit, t2.drop (t2.takeWhile isAsciiDigit).length with
  | [], _ => none
  | _ :: [], '.' :: _ => none
  | c0 :: c1 :: rs, '.' :: _ => some (mvOut r1 r2 ((c0 :: c1 :: rs).dropLast))
  | r3, _ => some (mvOut r1 r2 r3)

/-- Specification wording, second group: the maximal leading digit run,
which must be non-empty and followed by a dot. -/
def specLevel2 (r1 t1 : List Char) : Option (List Char × List Char × List Char) :=
  match t1.takeWhile isAsciiDigit, t1.drop (t1.takeWhile isAsciiDigit).length with
  | [], _ => none
  | r2, '.' :: t2 => specLevel3 r1 r2 t2
  | _, _ => none

/-- Deterministic characterization of the leading-version-token match,
used as the amended claim wording: maximal digit run, dot, maximal digit
run, dot, then the third-group rule of `specLevel3`. -/
def specLeadingVersionToken (l : List Char) :
    Option (List Char × List Char × List Char) :=
  match l.takeWhile isAsciiDigit, l.drop (l.takeWhile isAsciiDigit).length with
  | [], _ => none
  | r1, '.' :: t1 => specLevel2 r1 t1
  | _, _ => none

/-- Wording of the original claim C7: a leading token of shape
`\d+.\d+.\d+` that is "not followed by a further .digit".  `rest` is
followed by a further dot-digit when it starts with a dot and then a
digit. -/
def dotDigitLead (rest : List Char) : Bool :=
  match rest with
  | '.' :: c :: _ => isAsciiDigit c
  | _ => false

/-- Original claim C7's success condition on the inner content: it
begins with three non-empty digit groups separated by dots, and the
remainder is not a further `.digit`. -/
def claimVersionCond (inner : List Char) : Prop :=
  ∃ d1 d2 d3 rest, inner = d1 ++ '.' :: (d2 ++ '.' :: (d3 ++ rest)) ∧
    d1 ≠ [] ∧ d2 ≠ [] ∧ d3 ≠ [] ∧
    (∀ c ∈ d1, isAsciiDigit c = true) ∧ (∀ c ∈ d2, isAsciiDigit c = true) ∧
    (∀ c ∈ d3, isAsciiDigit c = true) ∧ dotDigitLead rest = false

/-! ## Helper lemmas -/

lemma containsSub_nil_iff (needle : List Char) :
    containsSub [] needle = true ↔ needle = [] := by
  simp [containsSub, List.isEmpty_iff]

lemma hay_ne_nil_of_containsSub {hay needle : List Char}
    (h : containsSub hay needle = true) (hne : needle ≠ []) : hay ≠ [] := by
  intro hhay
  subst hhay
  exact hne ((containsSub_nil_iff needle).mp h)

lemma markerLoop_fst (prog : List Char) :
    ∀ (ms : List (List Char)) (total : Nat) (samples : List (List Char)),
      (markerLoop prog ms total samples).1 =
        total + ms.countP
          (fun m => !(stripWs m).isEmpty && containsSub prog (stripWs m)) := by
  intro ms
  induction ms with
  | nil => intro total samples; simp [markerLoop]
  | cons m rest ih =>
    intro total samples
    by_cases he : (stripWs m).isEmpty
    · simp [markerLoop, he, ih, List.countP_cons]
    · by_cases hc : containsSub prog (stripWs m)
      · have step : markerLoop prog (m :: rest) total samples =
            markerLoop prog rest (total + 1)
              (if samples.length < MARKER_SAMPLE_LIMIT then samples ++ [stripWs m]
               else samples) := by
          simp [markerLoop, he, hc]
        rw [step, ih, List.countP_cons]
        simp only [he, hc, Bool.not_false, Bool.and_self]
        simp
        omega
      · have step : markerLoop prog (m :: rest) total samples =
            markerLoop prog rest total samples := by
          simp [markerLoop, he, hc]
        rw [step, ih, List.countP_cons]
        simp [he, hc]

lemma markerLoop_snd_len (prog : List Char) :
    ∀ (ms : List (List Char)) (total : Nat) (samples : List (List Char)),
      samples.length = min total MARKER_SAMPLE_LIMIT →
      (markerLoop prog ms total samples).2.length =
        min (markerLoop prog ms total samples).1 MARKER_SAMPLE_LIMIT := by
  intro ms
  induction ms with
  | nil => intro total samples h; simpa [markerLoop] using h
  | cons m rest ih =>
    intro total samples h
    by_cases he : (stripWs m).isEmpty
    · simp only [markerLoop, he, if_true]
      exact ih total samples h
    · by_cases hc : containsSub prog (stripWs m)
      · simp only [markerLoop, he, if_false, hc, if_true]
        apply ih
        by_cases hlen : samples.length < MARKER_SAMPLE_LIMIT
        · simp only [hlen, if_true, List.length_append, List.length_cons,
            List.length_nil]
          unfold MARKER_SAMPLE_LIMIT at *
          omega
        · simp only [hlen, if_false]
          unfold MARKER_SAMPLE_LIMIT at *
          omega
      · simp only [markerLoop, he, if_false, hc]
        exact ih total samples h

lemma markerLoop_snd_mem (prog : List Char) :
    ∀ (ms : List (List Char)) (total : Nat) (samples : List (List Char))
      (x : List Char), x ∈ (markerLoop prog ms total samples).2 →
      x ∈ samples ∨ ∃ m ∈ ms, stripWs m = x ∧ containsSub prog x = true := by
  intro ms
  induction ms with
  | nil => intro total samples x hx; exact Or.inl hx
  | cons m rest ih =>
    intro total samples x hx
    by_cases he : (stripWs m).isEmpty
    · simp only [markerLoop, he, if_true] at hx
      rcases ih _ _ _ hx with h | ⟨m', hm', hs, hc⟩
      · exact Or.inl h
      · exact Or.inr ⟨m', List.mem_cons_of_mem _ hm', hs, hc⟩
    · by_cases hc : containsSub prog (stripWs m)
      · simp only [markerLoop, he, if_false, hc, if_true] at hx
        rcases ih _ _ _ hx with h | ⟨m', hm', hs, hc'⟩
        · by_cases hlen : samples.length < MARKER_SAMPLE_LIMIT
          · simp only [hlen, if_true, List.mem_append, List.mem_singleton] at h
            rcases h with h | rfl
            · exact Or.inl h
            · exact Or.inr ⟨m, List.mem_cons_self _ _, rfl, hc⟩
          · simp only [hlen, if_false] at h
            exact Or.inl h
        · exact Or.inr ⟨m', List.mem_cons_of_mem _ hm', hs, hc'⟩
      · simp only [markerLoop, he, if_false, hc] at hx
        rcases ih _ _ _ hx with h | ⟨m', hm', hs, hc'⟩
        · exact Or.inl h
        · exact Or.inr ⟨m', List.mem_cons_of_mem _ hm', hs, hc'⟩

lemma collectMarkerEvidence_some {prog : List Char} {ms : List (List Char)}
    {ev : MarkerEvidence} (h : collectMarkerEvidence prog ms = some ev) :
    ev.totalMatches =
      ms.countP (fun m => !(stripWs m).isEmpty && containsSub prog (stripWs m)) ∧
    1 ≤ ev.totalMatches ∧
    ev.markers.length = min ev.totalMatches MARKER_SAMPLE_LIMIT ∧
    ∀ x ∈ ev.markers, ∃ m ∈ ms, stripWs m = x ∧ containsSub prog x = true := by
  unfold collectMarkerEvidence at h
  by_cases h0 : (markerLoop prog ms 0 []).1 = 0
  · simp [h0] at h
  · simp only [h0, if_false, Option.some_inj] at h
    have hm : ev.markers = (markerLoop prog ms 0 []).2 := by rw [← h]
    have ht : ev.totalMatches = (markerLoop prog ms 0 []).1 := by rw [← h]
    refine ⟨?_, ?_, ?_, ?_⟩
    · rw [ht]; simpa using markerLoop_fst prog ms 0 []
    · rw [ht]; omega
    · rw [hm, ht]
      exact markerLoop_snd_len prog ms 0 [] (by simp [MARKER_SAMPLE_LIMIT])
    · intro x hx
      rw [hm] at hx
      rcases markerLoop_snd_mem prog ms 0 [] x hx with h' | h'
      · simp at h'
      · exact h'

lemma collectMarkerEvidence_none {prog : List Char} {ms : List (List Char)}
    (h : ∀ m ∈ ms, containsSub prog (stripWs m) = false) :
    collectMarkerEvidence prog ms = none := by
  unfold collectMarkerEvidence
  have : (markerLoop prog ms 0 []).1 = 0 := by
    rw [markerLoop_fst]
    simp only [Nat.zero_add, List.countP_eq_zero]
    intro m hm
    simp [h m hm]
  simp [this]

lemma collectMarkerEvidence_isSome {prog : List Char} {ms : List (List Char)}
    {m : List Char} (hm : m ∈ ms) (hne : (stripWs m).isEmpty = false)
    (hc : containsSub prog (stripWs m) = true) :
    ∃ ev, collectMarkerEvidence prog ms = some ev := by
  unfold collectMarkerEvidence
  have : 0 < (markerLoop prog ms 0 []).1 := by
    rw [markerLoop_fst]
    have : 0 < ms.countP (fun m => !(stripWs m).isEmpty && containsSub prog (stripWs m)) := by
      rw [List.countP_pos_iff]
      exact ⟨m, hm, by simp [hne, hc]⟩
    omega
  simp only [Nat.pos_iff_ne_zero] at this
  simp [this]

lemma collectMarkerEvidence_prog_ne_nil {prog : List Char}
    {ms : List (List Char)} {ev : MarkerEvidence}
    (h : collectMarkerEvidence prog ms = some ev) : prog ≠ [] := by
  rcases collectMarkerEvidence_some h with ⟨htot, hpos, -, -⟩
  have hcp : 0 < ms.countP
      (fun m => !(stripWs m).isEmpty && containsSub prog (stripWs m)) := by
    omega
  rcases List.countP_pos_iff.mp hcp with ⟨m, hm, hp⟩
  simp only [Bool.and_eq_true, Bool.not_eq_true'] at hp
  refine hay_ne_nil_of_containsSub hp.2 ?_
  intro hnil
  rw [hnil] at hp
  simp at hp

lemma tables_strip_nonempty :
    ∀ tbl ∈ [aikenMarkers, plutarchMarkers, opshinMarkers, plutusTxMarkers,
      heliosMarkers], ∀ m ∈ tbl, (stripWs m).isEmpty = false := by decide

lemma markerTable_cases (lang : DetectedLanguage) :
    markerTable lang ∈ [aikenMarkers, plutarchMarkers, opshinMarkers,
      plutusTxMarkers, heliosMarkers] ∨ markerTable lang = [] := by
  cases lang <;> simp [markerTable]

lemma findSome_getD_le {α : Type} :
    ∀ (l : List (Option α)) (j : Nat), l.getD j none ≠ none →
      ∃ k, k ≤ j ∧ l.getD k none ≠ none ∧ l.findSome? id = l.getD k none := by
  intro l
  induction l with
  | nil => intro j h; simp [List.getD] at h
  | cons a t ih =>
    intro j h
    cases a with
    | some x =>
      exact ⟨0, Nat.zero_le _, by simp, by simp [List.findSome?]⟩
    | none =>
      cases j with
      | zero => simp at h
      | succ j' =>
        obtain ⟨k, hk, hne, heq⟩ := ih j' (by rw [List.getD_cons_succ] at h; exact h)
        refine ⟨k + 1, by omega, ?_, ?_⟩
        · rw [List.getD_cons_succ]; exact hne
        · rw [List.getD_cons_succ, List.findSome?_cons]; exact heq

lemma predict_eq_chain (t : UPLCTerm) (text : List Char)
    (h : (normalizeProgram text).isEmpty = false) :
    predictLanguage t text = (chainResults t (normalizeProgram text)).findSome? id := by
  unfold predictLanguage chainResults
  simp only [h, Bool.false_eq_true, if_false]
  cases hA : collectMarkerEvidence (normalizeProgram text) aikenMarkers with
  | some ev => simp [List.findSome?]
  | none =>
    by_cases hP : isPlutsTerm t
    · simp [hP, List.findSome?]
    · cases hH : collectMarkerEvidence (normalizeProgram text) heliosMarkers with
      | some ev => simp [hP, List.findSome?]
      | none =>
        cases hT : collectMarkerEvidence (normalizeProgram text) plutusTxMarkers with
        | some ev => simp [hP, List.findSome?]
        | none =>
          cases hO : collectMarkerEvidence (normalizeProgram text) opshinMarkers with
          | some ev => simp [hP, List.findSome?]
          | none =>
            cases hPl : collectMarkerEvidence (normalizeProgram text) plutarchMarkers with
            | some ev => simp [hP, List.findSome?]
            | none => simp [hP, List.findSome?]

/-! ## Claim C1: the byte-string framing header -/

/-- Claim C1 (amended).  For every byte sequence, `wrapBytesAsCbor`
returns a header followed by the input verbatim, the header determined
solely by the length `L`: for `L ≤ 23` the single byte `0x40 + L`; for
`24 ≤ L ≤ 255` the bytes `0x58, L`; for `256 ≤ L ≤ 65535` the byte
`0x59` followed by the 2-byte big-endian representation of `L`; for
`L ≥ 65536` the byte `0x5a` followed by the 4-byte big-endian
representation of `L % 2 ^ 32` (the reduction mod `2 ^ 32` is forced by
JavaScript's unsigned 32-bit shift semantics and is the identity for all
`L < 2 ^ 32`).  No length is rejected. -/
theorem wrapBytesAsCbor_framing (bytes : List Nat) :
    ∃ header, wrapBytesAsCbor bytes = header ++ bytes ∧
      (bytes.length ≤ 23 → header = [0x40 + bytes.length]) ∧
      (24 ≤ bytes.length → bytes.length ≤ 255 → header = [0x58, bytes.length]) ∧
      (256 ≤ bytes.length → bytes.length ≤ 65535 →
        ∃ h1 h2, header = [0x59, h1, h2] ∧ h1 < 256 ∧ h2 < 256 ∧
          h1 * 256 + h2 = bytes.length) ∧
      (65536 ≤ bytes.length →
        ∃ h1 h2 h3 h4, header = [0x5a, h1, h2, h3, h4] ∧
          h1 < 256 ∧ h2 < 256 ∧ h3 < 256 ∧ h4 < 256 ∧
          ((h1 * 2 ^ 24 + h2 * 2 ^ 16) + h3 * 2 ^ 8) + h4 =
            bytes.length % 2 ^ 32) := by
  by_cases hc1 : bytes.length ≤ 23
  · refine ⟨[0x40 + bytes.length], by simp [wrapBytesAsCbor, hc1], fun _ => rfl,
      ?_, ?_, ?_⟩ <;> intros <;> omega
  · by_cases hc2 : bytes.length ≤ 0xff
    · refine ⟨[0x58, bytes.length], by simp [wrapBytesAsCbor, hc1, hc2],
        ?_, fun _ _ => rfl, ?_, ?_⟩ <;> intros <;> omega
    · by_cases hc3 : bytes.length ≤ 0xffff
      · refine ⟨[0x59, bytes.length / 256 % 256, bytes.length % 256],
          by simp [wrapBytesAsCbor, hc1, hc2, hc3], ?_, ?_, ?_, ?_⟩
        · intro h; omega
        · intro h; omega
        · intro _ _
          exact ⟨bytes.length / 256 % 256, bytes.length % 256, rfl,
            Nat.mod_lt _ (by omega), Nat.mod_lt _ (by omega), by omega⟩
        · intro h; omega
      · refine ⟨[0x5a, toUint32 bytes.length / 2 ^ 24 % 256,
          toUint32 bytes.length / 2 ^ 16 % 256,
          toUint32 bytes.length / 2 ^ 8 % 256, bytes.length % 256],
          by simp [wrapBytesAsCbor, hc1, hc2, hc3], ?_, ?_, ?_, ?_⟩
        · intro h; omega
        · intro h; omega
        · intro _ h; omega
        · intro _
          refine ⟨toUint32 bytes.length / 2 ^ 24 % 256,
            toUint32 bytes.length / 2 ^ 16 % 256,
            toUint32 bytes.length / 2 ^ 8 % 256, bytes.length % 256, rfl,
            Nat.mod_lt _ (by omega), Nat.mod_lt _ (by omega),
            Nat.mod_lt _ (by omega), Nat.mod_lt _ (by omega), ?_⟩
          have e24 : (2 : Nat) ^ 24 = 16777216 := by norm_num
          have e16 : (2 : Nat) ^ 16 = 65536 := by norm_num
          have e8 : (2 : Nat) ^ 8 = 256 := by norm_num
          have e32 : (2 : Nat) ^ 32 = 4294967296 := by norm_num
          unfold toUint32
          rw [e24, e16, e8, e32]
          omega

/-- Witness for C1's theorem at a concrete input. -/
theorem wrapBytesAsCbor_framing_witness :
    ∃ header, wrapBytesAsCbor [7, 7] = header ++ [7, 7] ∧
      ((List.length [7, 7] ≤ 23 → header = [0x40 + List.length [7, 7]]) ∧
        (24 ≤ List.length [7, 7] → List.length [7, 7] ≤ 255 →
          header = [0x58, List.length [7, 7]]) ∧
        (256 ≤ List.length [7, 7] → List.length [7, 7] ≤ 65535 →
          ∃ h1 h2, header = [0x59, h1, h2] ∧ h1 < 256 ∧ h2 < 256 ∧
            h1 * 256 + h2 = List.length [7, 7]) ∧
        (65536 ≤ List.length [7, 7] →
          ∃ h1 h2 h3 h4, header = [0x5a, h1, h2, h3, h4] ∧
            h1 < 256 ∧ h2 < 256 ∧ h3 < 256 ∧ h4 < 256 ∧
            ((h1 * 2 ^ 24 + h2 * 2 ^ 16) + h3 * 2 ^ 8) + h4 =
              List.length [7, 7] % 2 ^ 32)) := by
  obtain ⟨header, h1, h2⟩ := wrapBytesAsCbor_framing [7, 7]
  exact ⟨header, h1, h2⟩

/-- Counterexample to claim C1 as stated: at the input of length
`2 ^ 32` (a legal `Uint8Array` length, the ECMAScript bound being
`2 ^ 53 - 1`), the five-byte header is `0x5a` followed by four zero
bytes, and no four bytes can represent the true length `2 ^ 32` in
big-endian — the code wraps the length modulo `2 ^ 32`. -/
theorem wrapBytesAsCbor_claim_cex :
    wrapBytesAsCbor (List.replicate (2 ^ 32) 0) =
      0x5a :: 0 :: 0 :: 0 :: 0 :: List.replicate (2 ^ 32) 0 ∧
    ¬ ∃ h1 h2 h3 h4 : Nat, h1 < 256 ∧ h2 < 256 ∧ h3 < 256 ∧ h4 < 256 ∧
        wrapBytesAsCbor (List.replicate (2 ^ 32) 0) =
          0x5a :: h1 :: h2 :: h3 :: h4 :: List.replicate (2 ^ 32) 0 ∧
        ((h1 * 2 ^ 24 + h2 * 2 ^ 16) + h3 * 2 ^ 8) + h4 =
          (List.replicate (2 ^ 32) (0 : Nat)).length := by
  have hL : (List.replicate (2 ^ 32) (0 : Nat)).length = 2 ^ 32 :=
    List.length_replicate _ _
  have hbig : wrapBytesAsCbor (List.replicate (2 ^ 32) (0 : Nat)) =
      0x5a :: (toUint32 (2 ^ 32) / 2 ^ 24 % 256) ::
        (toUint32 (2 ^ 32) / 2 ^ 16 % 256) ::
        (toUint32 (2 ^ 32) / 2 ^ 8 % 256) :: (2 ^ 32 % 256) ::
        List.replicate (2 ^ 32) 0 := by
    unfold wrapBytesAsCbor
    rw [hL]
    norm_num
  have hmain : wrapBytesAsCbor (List.replicate (2 ^ 32) 0) =
      0x5a :: 0 :: 0 :: 0 :: 0 :: List.replicate (2 ^ 32) 0 := by
    rw [hbig]
    norm_num [toUint32]
  refine ⟨hmain, ?_⟩
  rintro ⟨h1, h2, h3, h4, -, -, -, -, heq, hsum⟩
  rw [hmain] at heq
  simp only [List.cons.injEq, true_and] at heq
  obtain ⟨e1, e2, e3, e4, -⟩ := heq
  rw [hL] at hsum
  rw [← e1, ← e2, ← e3, ← e4] at hsum
  norm_num at hsum

/-! ## Claim C5: the hex normalizer -/

/-- Claim C5.  `normalizeHex` removes all whitespace and then a single
leading case-insensitive `0x`; on the remainder `r` it fails with the
"empty" error iff `r` is empty, with the "non-hex" error iff (`r` being
non-empty) some character of `r` is not a hex digit, with the "odd
length" error iff (`r` being non-empty and all-hex) `r` has odd length,
and otherwise returns the lower-casing of `r` — never a truncation. -/
theorem normalizeHex_characterization (input : List Char) :
    (normalizeHex input = .error ⟨hexEmptyMsg⟩ ↔ hexRemainder input = []) ∧
    (normalizeHex input = .error ⟨hexNonHexMsg⟩ ↔
      hexRemainder input ≠ [] ∧ ∃ c ∈ hexRemainder input, isHexChar c = false) ∧
    (normalizeHex input = .error ⟨hexOddMsg⟩ ↔
      hexRemainder input ≠ [] ∧ (∀ c ∈ hexRemainder input, isHexChar c = true) ∧
      (hexRemainder input).length % 2 = 1) ∧
    (hexRemainder input ≠ [] → (∀ c ∈ hexRemainder input, isHexChar c = true) →
      (hexRemainder input).length % 2 = 0 →
      normalizeHex input = .ok ((hexRemainder input).map asciiToLower)) := by
  have hd1 : hexEmptyMsg ≠ hexNonHexMsg := by decide
  have hd2 : hexEmptyMsg ≠ hexOddMsg := by decide
  have hd3 : hexNonHexMsg ≠ hexOddMsg := by decide
  have einj : ∀ m1 m2 : List Char,
      (Except.error ⟨m1⟩ : Except ParseErr (List Char)) = .error ⟨m2⟩ ↔ m1 = m2 := by
    intro m1 m2; simp
  by_cases hE : hexRemainder input = []
  · have heq : normalizeHex input = .error ⟨hexEmptyMsg⟩ := by
      unfold normalizeHex
      simp [hE]
    refine ⟨⟨fun _ => hE, fun _ => heq⟩, ⟨?_, ?_⟩, ⟨?_, ?_⟩,
      fun h _ _ => absurd hE h⟩
    · intro h; rw [heq] at h; exact absurd ((einj _ _).mp h) hd1
    · rintro ⟨hne, -⟩; exact absurd hE hne
    · intro h; rw [heq] at h; exact absurd ((einj _ _).mp h) hd2
    · rintro ⟨hne, -⟩; exact absurd hE hne
  · by_cases hA : ∀ c ∈ hexRemainder input, isHexChar c = true
    · have hall : (hexRemainder input).all isHexChar = true :=
        List.all_eq_true.mpr hA
      by_cases hO : (hexRemainder input).length % 2 = 0
      · have heq : normalizeHex input = .ok ((hexRemainder input).map asciiToLower) := by
          unfold normalizeHex
          simp [List.isEmpty_iff, hE, hall, hO]
        refine ⟨⟨?_, ?_⟩, ⟨?_, ?_⟩, ⟨?_, ?_⟩, fun _ _ _ => heq⟩
        · intro h; rw [heq] at h; exact Except.noConfusion h
        · intro h; exact absurd h hE
        · intro h; rw [heq] at h; exact Except.noConfusion h
        · rintro ⟨-, c, hc, hf⟩; rw [hA c hc] at hf; exact Bool.noConfusion hf
        · intro h; rw [heq] at h; exact Except.noConfusion h
        · rintro ⟨-, -, hodd⟩; omega
      · have hO1 : (hexRemainder input).length % 2 = 1 := by omega
        have heq : normalizeHex input = .error ⟨hexOddMsg⟩ := by
          unfold normalizeHex
          simp [List.isEmpty_iff, hE, hall, hO1]
        refine ⟨⟨?_, ?_⟩, ⟨?_, ?_⟩,
          ⟨fun _ => ⟨hE, hA, hO1⟩, fun _ => heq⟩, fun _ _ h => absurd h hO⟩
        · intro h; rw [heq] at h; exact absurd ((einj _ _).mp h).symm hd2
        · intro h; exact absurd h hE
        · intro h; rw [heq] at h; exact absurd ((einj _ _).mp h).symm hd3
        · rintro ⟨-, c, hc, hf⟩; rw [hA c hc] at hf; exact Bool.noConfusion hf
    · have hex : ∃ c ∈ hexRemainder input, ¬ isHexChar c = true := by
        push_neg at hA; exact hA
      obtain ⟨c, hc, hcne⟩ := hex
      have hcf : isHexChar c = false := by simpa using hcne
      have hall : (hexRemainder input).all isHexChar = false := by
        rw [← Bool.not_eq_true, List.all_eq_true]
        push_neg
        exact ⟨c, hc, hcne⟩
      have heq : normalizeHex input = .error ⟨hexNonHexMsg⟩ := by
        unfold normalizeHex
        simp [List.isEmpty_iff, hE, hall]
      refine ⟨⟨?_, ?_⟩, ⟨fun _ => ⟨hE, c, hc, hcf⟩, fun _ => heq⟩, ⟨?_, ?_⟩,
        fun _ hall2 _ => absurd (hall2 c hc) hcne⟩
      · intro h; rw [heq] at h; exact absurd ((einj _ _).mp h).symm hd1
      · intro h; exact absurd h hE
      · intro h; rw [heq] at h; exact absurd ((einj _ _).mp h) hd3
      · rintro ⟨-, hall2, -⟩; exact absurd (hall2 c hc) hcne

/-- Witness for C5's theorem: a prefixed, whitespace-laden, mixed-case
input normalizes to its lower-case, prefix-stripped, whitespace-free
form. -/
theorem normalizeHex_characterization_witness :
    normalizeHex ((" 0Xa B1c ").toList) = .ok (("ab1c").toList) := by
  have h := (normalizeHex_characterization ((" 0Xa B1c ").toList)).2.2.2
    (by decide) (by decide) (by decide)
  simpa using h

/-! ## Claim C6: default version for header-less text -/

/-- Claim C6.  When the trimmed input does not begin with the token
`(program`, `detectVersionFromSource` returns the fixed default version
and never fails. -/
theorem detectVersion_default_on_no_header (source : List Char)
    (h : beginsWith (jsTrim source) (("(program").toList) = false) :
    detectVersionFromSource source = .ok defaultUplcVersion := by
  unfold detectVersionFromSource
  have h' : ¬ (beginsWith (jsTrim source) (("(program").toList) = true) :=
    fun hcontra => Bool.noConfusion (hcontra ▸ h)
  rw [if_neg h']

/-- Witness for C6's theorem. -/
theorem detectVersion_default_on_no_header_witness :
    detectVersionFromSource (("foo").toList) = .ok defaultUplcVersion :=
  detectVersion_default_on_no_header _ (by decide)

/-! ## Claim C10: the whitespace-only guard of `predictLanguage` -/

/-- Claim C10.  When the program text strips to the empty string,
`predictLanguage` returns no prediction, for every term — no classifier
in the chain is consulted, including the structural one. -/
theorem predictLanguage_whitespace_null (t : UPLCTerm) (text : List Char)
    (h : stripWs text = []) : predictLanguage t text = none := by
  unfold predictLanguage normalizeProgram
  simp [h]

/-- Witness for C10's theorem: whitespace-only text with a term that
does satisfy the structural plu-ts shape. -/
theorem predictLanguage_whitespace_null_witness :
    isPlutsTerm (.lam (.case (.constr 0 [])
      [.errorTerm, .uconst .int (.vInt 42)])) = true ∧
    predictLanguage (.lam (.case (.constr 0 [])
      [.errorTerm, .uconst .int (.vInt 42)])) (("  ").toList) = none :=
  ⟨by decide, predictLanguage_whitespace_null _ _ (by decide)⟩

/-! ## Claim C3: ordered classifier chain, first match wins -/

lemma norm_ne_of_chain_fire (t : UPLCTerm) (norm : List Char) (k : Nat)
    (hk : k ≠ 1) (h : (chainResults t norm).getD k none ≠ none) : norm ≠ [] := by
  have hmap : ∀ (tbl : List (List Char))
      (f : MarkerEvidence → LanguagePrediction),
      (collectMarkerEvidence norm tbl).map f ≠ none → norm ≠ [] := by
    intro tbl f hne
    cases hc : collectMarkerEvidence norm tbl with
    | none => rw [hc] at hne; simp at hne
    | some ev => exact collectMarkerEvidence_prog_ne_nil hc
  match k with
  | 0 => exact hmap aikenMarkers _ h
  | 1 => exact absurd rfl hk
  | 2 => exact hmap heliosMarkers _ h
  | 3 => exact hmap plutusTxMarkers _ h
  | 4 => exact hmap opshinMarkers _ h
  | 5 => exact hmap plutarchMarkers _ h
  | (n + 6) =>
    exfalso
    apply h
    simp only [chainResults, List.getD_cons_succ]
    simp [List.getD]

lemma isEmpty_false_of_ne_nil {l : List Char} (h : l ≠ []) : l.isEmpty = false := by
  cases l with
  | nil => exact absurd rfl h
  | cons a t => rfl

/-- Claim C3.  The classifier chain is evaluated in a fixed order with
first match winning: any text containing an Aiken marker is classified
as Aiken regardless of later tables and of the term's structure; and in
general, whenever the classifiers at two chain positions `i < j` both
fire, the prediction is the outcome of a position `k ≤ i` — never the
later position's. -/
theorem predictLanguage_chain_priority :
    (∀ (t : UPLCTerm) (text : List Char),
      (∃ m ∈ aikenMarkers, containsSub (stripWs text) (stripWs m) = true) →
      ∃ ev, predictLanguage t text = some ⟨.aiken, .marker ev⟩) ∧
    (∀ (t : UPLCTerm) (text : List Char) (i j : Nat), i < j →
      (chainResults t (stripWs text)).getD j none ≠ none →
      (chainResults t (stripWs text)).getD i none ≠ none →
      ∃ k, k ≤ i ∧ (chainResults t (stripWs text)).getD k none ≠ none ∧
        predictLanguage t text = (chainResults t (stripWs text)).getD k none) := by
  constructor
  · rintro t text ⟨m, hm, hc⟩
    have hne : (stripWs m).isEmpty = false :=
      tables_strip_nonempty aikenMarkers (by simp) m hm
    obtain ⟨ev, hev⟩ := collectMarkerEvidence_isSome hm hne hc
    have hprogne : stripWs text ≠ [] := collectMarkerEvidence_prog_ne_nil hev
    refine ⟨ev, ?_⟩
    simp only [predictLanguage, normalizeProgram]
    rw [if_neg (by rw [isEmpty_false_of_ne_nil hprogne]; exact Bool.false_ne_true)]
    rw [hev]
  · intro t text i j hij hj hi
    have hnorm : stripWs text ≠ [] := by
      by_cases hi1 : i = 1
      · exact norm_ne_of_chain_fire t (stripWs text) j (by omega) hj
      · exact norm_ne_of_chain_fire t (stripWs text) i hi1 hi
    obtain ⟨k, hk, hkne, heq⟩ := findSome_getD_le (chainResults t (stripWs text)) i hi
    refine ⟨k, hk, hkne, ?_⟩
    rw [predict_eq_chain t text (isEmpty_false_of_ne_nil hnorm)]
    exact heq

/-- Witness for C3's theorem: a text containing both an Aiken marker
and a Helios marker fires the classifiers at chain positions 0 and 2,
and the prediction is Aiken, the result of a position `k ≤ 0`. -/
theorem predictLanguage_chain_priority_witness :
    (∃ ev, predictLanguage .errorTerm
      (("ExpectednoitemsforListvalidationreturnedfalse").toList) =
      some ⟨.aiken, .marker ev⟩) ∧
    (∃ k, k ≤ 0 ∧
      (chainResults .errorTerm
        (stripWs (("ExpectednoitemsforListvalidationreturnedfalse").toList))).getD k none ≠ none ∧
      predictLanguage .errorTerm
        (("ExpectednoitemsforListvalidationreturnedfalse").toList) =
        (chainResults .errorTerm
          (stripWs (("ExpectednoitemsforListvalidationreturnedfalse").toList))).getD k none) :=
  ⟨predictLanguage_chain_priority.1 _ _ (by decide),
   predictLanguage_chain_priority.2 _ _ 0 2 (by decide) (by decide) (by decide)⟩

/-! ## Claim C4: structural plu-ts classification -/

lemma isPlutsTerm_shape_mp : ∀ t, isPlutsTerm t = true → PlutsShape t
  | .lam b, h =>
    PlutsShape.lam (isPlutsTerm_shape_mp b (by simpa [isPlutsTerm] using h))
  | .case scrut conts, h => by
    cases scrut with
    | constr idx fields =>
      cases fields with
      | cons f fs => simp [isPlutsTerm] at h
      | nil =>
        rcases conts with - | ⟨c0, - | ⟨c1, - | ⟨c2, rest⟩⟩⟩
        · simp [isPlutsTerm] at h
        · simp [isPlutsTerm] at h
        case cons.cons.nil =>
          cases c1 with
          | uconst ty v =>
            cases ty with
            | other n => simp [isPlutsTerm, constTypeEq] at h
            | int =>
              cases v with
              | vNonInt => simp [isPlutsTerm, constTypeEq] at h
              | vInt n =>
                simp only [isPlutsTerm, constTypeEq, Bool.and_eq_true,
                  beq_iff_eq] at h
                obtain ⟨⟨hidx, -⟩, -, hn⟩ := h
                subst hidx
                subst hn
                exact PlutsShape.base c0
          | var i => simp [isPlutsTerm] at h
          | lam b => simp [isPlutsTerm] at h
          | app f a => simp [isPlutsTerm] at h
          | delay d => simp [isPlutsTerm] at h
          | force f => simp [isPlutsTerm] at h
          | builtin b => simp [isPlutsTerm] at h
          | errorTerm => simp [isPlutsTerm] at h
          | constr i fs => simp [isPlutsTerm] at h
          | case s c => simp [isPlutsTerm] at h
        · simp [isPlutsTerm] at h
    | var i => simp [isPlutsTerm] at h
    | lam b => simp [isPlutsTerm] at h
    | app f a => simp [isPlutsTerm] at h
    | delay d => simp [isPlutsTerm] at h
    | force f => simp [isPlutsTerm] at h
    | uconst ty v => simp [isPlutsTerm] at h
    | builtin b => simp [isPlutsTerm] at h
    | errorTerm => simp [isPlutsTerm] at h
    | case s c => simp [isPlutsTerm] at h
  | .var _, h => by simp [isPlutsTerm] at h
  | .app _ _, h => by simp [isPlutsTerm] at h
  | .delay _, h => by simp [isPlutsTerm] at h
  | .force _, h => by simp [isPlutsTerm] at h
  | .uconst _ _, h => by simp [isPlutsTerm] at h
  | .builtin _, h => by simp [isPlutsTerm] at h
  | .errorTerm, h => by simp [isPlutsTerm] at h
  | .constr _ _, h => by simp [isPlutsTerm] at h

lemma isPlutsTerm_shape_mpr {t : UPLCTerm} (h : PlutsShape t) :
    isPlutsTerm t = true := by
  induction h with
  | base b => simp [isPlutsTerm, constTypeEq]
  | lam _ ih => simpa [isPlutsTerm] using ih

/-- Claim C4.  `isPlutsTerm` holds exactly of the specified shape (a
chain of outer lambdas over a two-branch case on a zero-index,
zero-field constructor whose final branch is the integer constant 42);
and every term of that shape is classified as plu-ts with structural
evidence whenever the program text (non-empty once whitespace-stripped,
as any rendering of such a term is) contains no marker of any language's
table — the structural check never reads the text. -/
theorem predictLanguage_pluts_structural :
    (∀ t : UPLCTerm, isPlutsTerm t = true ↔ PlutsShape t) ∧
    (∀ (t : UPLCTerm) (text : List Char), PlutsShape t →
      stripWs text ≠ [] →
      (∀ tbl ∈ [aikenMarkers, plutarchMarkers, opshinMarkers, plutusTxMarkers,
        heliosMarkers], ∀ m ∈ tbl, containsSub (stripWs text) (stripWs m) = false) →
      predictLanguage t text = some ⟨.pluts, .structural plutsDetail⟩) := by
  constructor
  · exact fun t => ⟨isPlutsTerm_shape_mp t, isPlutsTerm_shape_mpr⟩
  · intro t text hshape hne hnomark
    have hpl : isPlutsTerm t = true := isPlutsTerm_shape_mpr hshape
    have haiken : collectMarkerEvidence (stripWs text) aikenMarkers = none :=
      collectMarkerEvidence_none (fun m hm => hnomark aikenMarkers (by simp) m hm)
    simp only [predictLanguage, normalizeProgram]
    rw [if_neg (by rw [isEmpty_false_of_ne_nil hne]; exact Bool.false_ne_true)]
    rw [haiken, if_pos hpl]

/-- Witness for C4's theorem: a lambda-wrapped two-branch case on
`Constr 0` with final branch the integer constant 42 is classified as
plu-ts on a marker-free text. -/
theorem predictLanguage_pluts_structural_witness :
    predictLanguage (.lam (.case (.constr 0 []) [.var 0, .uconst .int (.vInt 42)]))
      (("xyz").toList) = some ⟨.pluts, .structural plutsDetail⟩ :=
  predictLanguage_pluts_structural.2 _ _
    (PlutsShape.lam (PlutsShape.base _)) (by decide) (by decide)

/-! ## Claim C9: marker-evidence invariants -/

lemma marker_invariants_of_collect {norm : List Char} {tbl : List (List Char)}
    {ev : MarkerEvidence}
    (htbl : tbl ∈ [aikenMarkers, plutarchMarkers, opshinMarkers, plutusTxMarkers,
      heliosMarkers])
    (h : collectMarkerEvidence norm tbl = some ev) :
    ev.totalMatches = tbl.countP (fun m => containsSub norm (stripWs m)) ∧
    1 ≤ ev.totalMatches ∧
    ev.markers.length = min ev.totalMatches MARKER_SAMPLE_LIMIT ∧
    ∀ x ∈ ev.markers, ∃ m ∈ tbl, stripWs m = x ∧ containsSub norm x = true := by
  obtain ⟨h1, h2, h3, h4⟩ := collectMarkerEvidence_some h
  refine ⟨?_, h2, h3, h4⟩
  rw [h1]
  apply List.countP_congr
  intro m hm
  have hne := tables_strip_nonempty tbl htbl m hm
  simp [hne]

/-- Claim C9.  Every marker-based prediction reports the exact count of
table markers whose whitespace-stripped form occurs in the stripped
text, at least one such marker, a sample capped at
`MARKER_SAMPLE_LIMIT` of length `min totalMatches limit`, and every
listed sample is a matched, whitespace-stripped table marker. -/
theorem predictLanguage_marker_invariants (t : UPLCTerm) (text : List Char)
    (lang : DetectedLanguage) (ev : MarkerEvidence)
    (h : predictLanguage t text = some ⟨lang, .marker ev⟩) :
    ev.totalMatches = (markerTable lang).countP
      (fun m => containsSub (stripWs text) (stripWs m)) ∧
    1 ≤ ev.totalMatches ∧
    ev.markers.length = min ev.totalMatches MARKER_SAMPLE_LIMIT ∧
    ∀ x ∈ ev.markers, ∃ m ∈ markerTable lang, stripWs m = x ∧
      containsSub (stripWs text) x = true := by
  simp only [predictLanguage, normalizeProgram] at h
  by_cases hemp : (stripWs text).isEmpty = true
  · rw [if_pos hemp] at h; exact Option.noConfusion h
  rw [if_neg hemp] at h
  cases hA : collectMarkerEvidence (stripWs text) aikenMarkers with
  | some evA =>
    rw [hA] at h
    simp only [Option.some.injEq, LanguagePrediction.mk.injEq] at h
    obtain ⟨hlang, hev⟩ := h
    subst hlang
    simp only [DetectionEvidence.marker.injEq] at hev
    subst hev
    exact marker_invariants_of_collect (by simp [markerTable]) hA
  | none =>
    rw [hA] at h
    by_cases hP : isPlutsTerm t
    · rw [if_pos hP] at h
      simp at h
    · rw [if_neg hP] at h
      cases hH : collectMarkerEvidence (stripWs text) heliosMarkers with
      | some evH =>
        rw [hH] at h
        simp only [Option.some.injEq, LanguagePrediction.mk.injEq] at h
        obtain ⟨hlang, hev⟩ := h
        subst hlang
        simp only [DetectionEvidence.marker.injEq] at hev
        subst hev
        exact marker_invariants_of_collect (by simp [markerTable]) hH
      | none =>
        rw [hH] at h
        cases hT : collectMarkerEvidence (stripWs text) plutusTxMarkers with
        | some evT =>
          rw [hT] at h
          simp only [Option.some.injEq, LanguagePrediction.mk.injEq] at h
          obtain ⟨hlang, hev⟩ := h
          subst hlang
          simp only [DetectionEvidence.marker.injEq] at hev
          subst hev
          exact marker_invariants_of_collect (by simp [markerTable]) hT
        | none =>
          rw [hT] at h
          cases hO : collectMarkerEvidence (stripWs text) opshinMarkers with
          | some evO =>
            rw [hO] at h
            simp only [Option.some.injEq, LanguagePrediction.mk.injEq] at h
            obtain ⟨hlang, hev⟩ := h
            subst hlang
            simp only [DetectionEvidence.marker.injEq] at hev
            subst hev
            exact marker_invariants_of_collect (by simp [markerTable]) hO
          | none =>
            rw [hO] at h
            cases hPl : collectMarkerEvidence (stripWs text) plutarchMarkers with
            | some evP =>
              rw [hPl] at h
              simp only [Option.some.injEq, LanguagePrediction.mk.injEq] at h
              obtain ⟨hlang, hev⟩ := h
              subst hlang
              simp only [DetectionEvidence.marker.injEq] at hev
              subst hev
              exact marker_invariants_of_collect (by simp [markerTable]) hPl
            | none =>
              rw [hPl] at h
              exact Option.noConfusion h

/-- Witness for C9's theorem at a concrete Aiken-marker text. -/
theorem predictLanguage_marker_invariants_witness :
    (⟨[("ExpectednoitemsforList").toList], 1⟩ : MarkerEvidence).totalMatches =
      (markerTable .aiken).countP
        (fun m => containsSub (stripWs (("ExpectednoitemsforList").toList))
          (stripWs m)) ∧
    1 ≤ (⟨[("ExpectednoitemsforList").toList], 1⟩ : MarkerEvidence).totalMatches ∧
    (⟨[("ExpectednoitemsforList").toList], 1⟩ : MarkerEvidence).markers.length =
      min (⟨[("ExpectednoitemsforList").toList], 1⟩ : MarkerEvidence).totalMatches
        MARKER_SAMPLE_LIMIT ∧
    ∀ x ∈ (⟨[("ExpectednoitemsforList").toList], 1⟩ : MarkerEvidence).markers,
      ∃ m ∈ markerTable .aiken, stripWs m = x ∧
        containsSub (stripWs (("ExpectednoitemsforList").toList)) x = true :=
  predictLanguage_marker_invariants (.var 0) (("ExpectednoitemsforList").toList)
    .aiken ⟨[("ExpectednoitemsforList").toList], 1⟩ (by decide)

/-! ## Claim C2: the dual-path orchestrator -/

lemma beginsWith_append : ∀ x r : List Char, beginsWith (x ++ r) x = true := by
  intro x
  induction x with
  | nil => intro r; simp [beginsWith]
  | cons c cs ih => intro r; simp [beginsWith, ih]

lemma containsSub_nil_needle : ∀ hay : List Char, containsSub hay [] = true := by
  intro hay
  cases hay with
  | nil => rfl
  | cons a t => simp [containsSub, beginsWith]

lemma containsSub_of_parts : ∀ (pre x post : List Char),
    containsSub (pre ++ (x ++ post)) x = true := by
  intro pre
  induction pre with
  | nil =>
    intro x post
    cases x with
    | nil => exact containsSub_nil_needle _
    | cons c cs =>
      simp only [List.nil_append, List.cons_append, containsSub]
      rw [show c :: (cs ++ post) = (c :: cs) ++ post from rfl, beginsWith_append]
      simp
  | cons p ps ih =>
    intro x post
    simp only [List.cons_append, containsSub]
    simp [ih x post]

/-- Claim C2.  For non-empty trimmed input, `handleProcess` tries the
text parse first; on its success the CBOR path is never attempted (the
outcome does not depend on the decoder at all) and a text-kind result is
produced; a hex-normalization failure is exactly the CBOR path's error;
and when both paths fail the single reported message is the two
labelled messages joined by one space, containing both underlying
failure texts verbatim. -/
theorem handleProcess_dual_path
    (parseText : List Char → Except (List Char) UPLCTerm)
    (prettyFn : UPLCTerm → List Char)
    (compileFn : UPLCVersion → UPLCTerm → List Nat)
    (decodeFn : List Nat → Except (List Char) UPLCProgram)
    (input : List Char) (hne : jsTrim input ≠ []) :
    ((∀ out, parseTextSource parseText prettyFn (jsTrim input) = .ok out →
      (∃ r, handleProcess parseText prettyFn compileFn decodeFn input =
        .success r ∧ r.kind = .text) ∧
      (∀ decodeFn', handleProcess parseText prettyFn compileFn decodeFn input =
        handleProcess parseText prettyFn compileFn decodeFn' input)) ∧
    (∀ pe, normalizeHex (jsTrim input) = .error pe →
      parseCborHex compileFn decodeFn prettyFn (jsTrim input) = .error pe.msg) ∧
    (∀ e1 e2, parseTextSource parseText prettyFn (jsTrim input) = .error e1 →
      parseCborHex compileFn decodeFn prettyFn (jsTrim input) = .error e2 →
      handleProcess parseText prettyFn compileFn decodeFn input =
        .failure (textFailLabel ++ e1 ++ ' ' :: (cborFailLabel ++ e2)) ∧
      containsSub (textFailLabel ++ e1 ++ ' ' :: (cborFailLabel ++ e2)) e1 = true ∧
      containsSub (textFailLabel ++ e1 ++ ' ' :: (cborFailLabel ++ e2)) e2 = true)) := by
  have hemp : (jsTrim input).isEmpty = false := isEmpty_false_of_ne_nil hne
  have hguard : ¬ ((jsTrim input).isEmpty = true) := by
    rw [hemp]; exact Bool.false_ne_true
  refine ⟨?_, ?_, ?_⟩
  · intro out hout
    constructor
    · simp only [handleProcess]
      rw [if_neg hguard, hout]
      exact ⟨_, rfl, rfl⟩
    · intro decodeFn'
      simp only [handleProcess]
      rw [if_neg hguard, if_neg hguard, hout]
  · intro pe hpe
    simp only [parseCborHex, hexStringToBytes]
    rw [hpe]
  · intro e1 e2 h1 h2
    refine ⟨?_, ?_, ?_⟩
    · simp only [handleProcess]
      rw [if_neg hguard, h1, h2]
    · have hassoc : textFailLabel ++ e1 ++ ' ' :: (cborFailLabel ++ e2) =
          textFailLabel ++ (e1 ++ (' ' :: (cborFailLabel ++ e2))) := by
        simp [List.append_assoc]
      rw [hassoc]
      exact containsSub_of_parts _ _ _
    · have hassoc : textFailLabel ++ e1 ++ ' ' :: (cborFailLabel ++ e2) =
          (textFailLabel ++ e1 ++ (' ' :: cborFailLabel)) ++ (e2 ++ []) := by
        simp
      rw [hassoc]
      exact containsSub_of_parts _ _ _

/-- Witness for C2's theorem: both paths fail and the combined message
carries both labelled errors. -/
theorem handleProcess_dual_path_witness :
    handleProcess (fun _ => .error (("boom").toList)) (fun _ => [])
      (fun _ _ => []) (fun _ => .error (("bad").toList)) (("zz").toList) =
      .failure (textFailLabel ++ ("boom").toList ++
        ' ' :: (cborFailLabel ++ hexNonHexMsg)) ∧
    containsSub (textFailLabel ++ ("boom").toList ++
      ' ' :: (cborFailLabel ++ hexNonHexMsg)) (("boom").toList) = true ∧
    containsSub (textFailLabel ++ ("boom").toList ++
      ' ' :: (cborFailLabel ++ hexNonHexMsg)) hexNonHexMsg = true :=
  (handleProcess_dual_path (fun _ => .error (("boom").toList)) (fun _ => [])
    (fun _ _ => []) (fun _ => .error (("bad").toList)) (("zz").toList)
    (by decide)).2.2 (("boom").toList) hexNonHexMsg rfl rfl

/-! ## Claim C8: encode/decode round trip -/

lemma hexDigitChar_props : ∀ n, n < 16 →
    isJsWs (hexDigitChar n) = false ∧ isHexChar (hexDigitChar n) = true ∧
    asciiToLower (hexDigitChar n) = hexDigitChar n ∧
    hexVal (hexDigitChar n) = some n ∧
    (hexDigitChar n == 'x') = false ∧ (hexDigitChar n == 'X') = false := by decide

lemma toHexL_cons (b : Nat) (rest : List Nat) :
    toHexL (b :: rest) =
      hexDigitChar (b / 16 % 16) :: hexDigitChar (b % 16) :: toHexL rest := rfl

lemma toHexL_stripWs : ∀ bs, stripWs (toHexL bs) = toHexL bs := by
  intro bs
  induction bs with
  | nil => rfl
  | cons b rest ih =>
    rw [toHexL_cons]
    have h1 := (hexDigitChar_props (b / 16 % 16) (Nat.mod_lt _ (by norm_num))).1
    have h2 := (hexDigitChar_props (b % 16) (Nat.mod_lt _ (by norm_num))).1
    simp only [stripWs, List.filter_cons, h1, Bool.not_false, if_true, h2]
    simpa [stripWs] using ih

lemma toHexL_all_hex : ∀ bs, (toHexL bs).all isHexChar = true := by
  intro bs
  induction bs with
  | nil => rfl
  | cons b rest ih =>
    rw [toHexL_cons]
    have h1 := (hexDigitChar_props (b / 16 % 16) (Nat.mod_lt _ (by norm_num))).2.1
    have h2 := (hexDigitChar_props (b % 16) (Nat.mod_lt _ (by norm_num))).2.1
    simp [h1, h2, ih]

lemma toHexL_len : ∀ bs : List Nat, (toHexL bs).length = 2 * bs.length := by
  intro bs
  induction bs with
  | nil => rfl
  | cons b rest ih => rw [toHexL_cons]; simp [ih]; omega

lemma toHexL_lower : ∀ bs, (toHexL bs).map asciiToLower = toHexL bs := by
  intro bs
  induction bs with
  | nil => rfl
  | cons b rest ih =>
    rw [toHexL_cons]
    have h1 := (hexDigitChar_props (b / 16 % 16) (Nat.mod_lt _ (by norm_num))).2.2.1
    have h2 := (hexDigitChar_props (b % 16) (Nat.mod_lt _ (by norm_num))).2.2.1
    simp [h1, h2, ih]

lemma fromHexL_toHexL : ∀ bs : List Nat, (∀ b ∈ bs, b < 256) →
    fromHexL (toHexL bs) = some bs := by
  intro bs
  induction bs with
  | nil => intro _; rfl
  | cons b rest ih =>
    intro hlt
    rw [toHexL_cons]
    have h1 := (hexDigitChar_props (b / 16 % 16) (Nat.mod_lt _ (by norm_num))).2.2.2.1
    have h2 := (hexDigitChar_props (b % 16) (Nat.mod_lt _ (by norm_num))).2.2.2.1
    have hrest := ih (fun x hx => hlt x (List.mem_cons_of_mem _ hx))
    have hb : b < 256 := hlt b (List.mem_cons_self _ _)
    have hval : b / 16 % 16 * 16 + b % 16 = b := by omega
    simp [fromHexL, h1, h2, hrest, hval]

lemma toHexL_no0x : ∀ bs : List Nat,
    beginsWith (toHexL bs) (("0x").toList) = false ∧
    beginsWith (toHexL bs) (("0X").toList) = false := by
  intro bs
  have e1 : (("0x").toList) = ['0', 'x'] := rfl
  have e2 : (("0X").toList) = ['0', 'X'] := rfl
  cases bs with
  | nil => rw [e1, e2]; exact ⟨rfl, rfl⟩
  | cons b rest =>
    rw [toHexL_cons, e1, e2]
    have h1 := (hexDigitChar_props (b % 16) (Nat.mod_lt _ (by norm_num))).2.2.2.2.1
    have h2 := (hexDigitChar_props (b % 16) (Nat.mod_lt _ (by norm_num))).2.2.2.2.2
    constructor
    · simp [beginsWith, h1]
    · simp [beginsWith, h2]

lemma hexRemainder_toHexL (bs : List Nat) :
    hexRemainder (toHexL bs) = toHexL bs := by
  simp only [hexRemainder]
  rw [toHexL_stripWs, (toHexL_no0x bs).1, (toHexL_no0x bs).2]
  simp

lemma normalizeHex_toHexL (bs : List Nat) (hne : bs ≠ []) :
    normalizeHex (toHexL bs) = .ok (toHexL bs) := by
  simp only [normalizeHex]
  rw [hexRemainder_toHexL]
  have hne' : (toHexL bs).isEmpty = false := by
    cases bs with
    | nil => exact absurd rfl hne
    | cons b rest => rw [toHexL_cons]; rfl
  rw [hne', toHexL_all_hex, toHexL_len, toHexL_lower]
  simp [Nat.mul_mod_right]

lemma hexStringToBytes_toHexL (bs : List Nat) (hne : bs ≠ [])
    (hlt : ∀ b ∈ bs, b < 256) : hexStringToBytes (toHexL bs) = .ok bs := by
  simp only [hexStringToBytes, normalizeHex_toHexL bs hne, fromHexL_toHexL bs hlt]

lemma wrapBytesAsCbor_ne_nil (bs : List Nat) : wrapBytesAsCbor bs ≠ [] := by
  simp only [wrapBytesAsCbor]
  split_ifs <;> simp

lemma wrapBytesAsCbor_lt256 {bs : List Nat} (h : ∀ b ∈ bs, b < 256) :
    ∀ b ∈ wrapBytesAsCbor bs, b < 256 := by
  have hm : ∀ x : Nat, x % 256 < 256 := fun x => Nat.mod_lt _ (by norm_num)
  simp only [wrapBytesAsCbor]
  split_ifs with h1 h2 h3 <;> intro b hb <;>
    simp only [List.mem_cons] at hb
  · rcases hb with rfl | hb
    · omega
    · exact h b hb
  · rcases hb with rfl | rfl | hb
    · omega
    · omega
    · exact h b hb
  · rcases hb with rfl | rfl | rfl | hb
    · omega
    · exact hm _
    · exact hm _
    · exact h b hb
  · rcases hb with rfl | rfl | rfl | rfl | rfl | hb
    · omega
    · exact hm _
    · exact hm _
    · exact hm _
    · exact hm _
    · exact h b hb

/-- Claim C8.  Assuming the external compiler and decoder are
deterministic, side-effect-free inverses on the program at hand,
decoding the framed encoding of a program via `parseCborHex` and
re-encoding yields flat and CBOR byte sequences (and hex renderings)
byte-identical to the first encoding pass; being pure functions, both
passes are deterministic. -/
theorem encode_decode_roundtrip
    (compileFn : UPLCVersion → UPLCTerm → List Nat)
    (decodeFn : List Nat → Except (List Char) UPLCProgram)
    (prettyFn : UPLCTerm → List Char)
    (term : UPLCTerm) (v : UPLCVersion)
    (hbytes : ∀ b ∈ compileFn v term, b < 256)
    (hinv : decodeFn (wrapBytesAsCbor (compileFn v term)) = .ok ⟨v, term⟩) :
    ∃ out, parseCborHex compileFn decodeFn prettyFn
        (encodeProgram compileFn term v).cborHex = .ok out ∧
      out.flatBytes = (encodeProgram compileFn term v).flatBytes ∧
      out.flatHex = (encodeProgram compileFn term v).flatHex ∧
      out.cborBytes = (encodeProgram compileFn term v).cborBytes ∧
      out.cborHex = (encodeProgram compileFn term v).cborHex := by
  have hcb : (encodeProgram compileFn term v).cborHex =
      toHexL (wrapBytesAsCbor (compileFn v term)) := rfl
  have hwne : wrapBytesAsCbor (compileFn v term) ≠ [] := wrapBytesAsCbor_ne_nil _
  have hwlt := wrapBytesAsCbor_lt256 hbytes
  simp only [parseCborHex]
  rw [hcb, hexStringToBytes_toHexL _ hwne hwlt]
  simp only [hinv]
  exact ⟨_, rfl, rfl, rfl, rfl, rfl⟩

/-- Witness for C8's theorem with a concrete one-byte compiler and its
matching decoder. -/
theorem encode_decode_roundtrip_witness :
    ∃ out, parseCborHex (fun _ _ => [0])
        (fun bts => if bts = wrapBytesAsCbor [0]
          then .ok ⟨⟨1, 0, 0⟩, .errorTerm⟩ else .error [])
        (fun _ => [])
        (encodeProgram (fun _ _ => [0]) .errorTerm ⟨1, 0, 0⟩).cborHex = .ok out ∧
      out.flatBytes = (encodeProgram (fun _ _ => [0]) .errorTerm ⟨1, 0, 0⟩).flatBytes ∧
      out.flatHex = (encodeProgram (fun _ _ => [0]) .errorTerm ⟨1, 0, 0⟩).flatHex ∧
      out.cborBytes = (encodeProgram (fun _ _ => [0]) .errorTerm ⟨1, 0, 0⟩).cborBytes ∧
      out.cborHex = (encodeProgram (fun _ _ => [0]) .errorTerm ⟨1, 0, 0⟩).cborHex :=
  encode_decode_roundtrip (fun _ _ => [0])
    (fun bts => if bts = wrapBytesAsCbor [0]
      then .ok ⟨⟨1, 0, 0⟩, .errorTerm⟩ else .error [])
    (fun _ => []) .errorTerm ⟨1, 0, 0⟩ (by decide) (by rfl)

/-! ## Claim C7: the version-token matcher -/

lemma findSome_none_of_all {α β : Type} (f : α → Option β) :
    ∀ l : List α, (∀ x ∈ l, f x = none) → l.findSome? f = none := by
  intro l
  induction l with
  | nil => intro _; rfl
  | cons a t ih =>
    intro h
    rw [List.findSome?_cons, h a (List.mem_cons_self _ _)]
    exact ih (fun x hx => h x (List.mem_cons_of_mem _ hx))

lemma splitsAux_snd_mem : ∀ (rd : List Char) (c : Char) (rest : List Char)
    (p : List Char × List Char), p ∈ splitsAux rd (c :: rest) →
    ∃ x t, p.2 = x :: t ∧ (x = c ∨ x ∈ rd) := by
  intro rd
  induction rd with
  | nil => intro c rest p hp; simp [splitsAux] at hp
  | cons d rd' ih =>
    intro c rest p hp
    simp only [splitsAux, List.mem_cons] at hp
    rcases hp with rfl | hp
    · exact ⟨c, rest, rfl, Or.inl rfl⟩
    · obtain ⟨x, t, hxt, hx⟩ := ih d (c :: rest) p hp
      rcases hx with rfl | hx
      · exact ⟨x, t, hxt, Or.inr (List.mem_cons_self _ _)⟩
      · exact ⟨x, t, hxt, Or.inr (List.mem_cons_of_mem _ hx)⟩

lemma findSome_splitsAux_dot {β : Type} (g : List Char → List Char → Option β) :
    ∀ (rd rest : List Char), (∀ c ∈ rd, isAsciiDigit c = true) →
      ((splitsAux rd rest).findSome? fun p =>
        match p.2 with
        | '.' :: t => g p.1 t
        | _ => none) =
      (match rd, rest with
       | _ :: _, '.' :: t => g rd.reverse t
       | _, _ => none) := by
  intro rd rest hrd
  cases rd with
  | nil => simp [splitsAux]
  | cons c rd' =>
    rw [show splitsAux (c :: rd') rest =
      (((c :: rd').reverse), rest) :: splitsAux rd' (c :: rest) from rfl]
    rw [List.findSome?_cons]
    have htail : ((splitsAux rd' (c :: rest)).findSome? fun p =>
        match p.2 with
        | '.' :: t => g p.1 t
        | _ => none) = none := by
      apply findSome_none_of_all
      intro p hp
      obtain ⟨x, t, hxt, hx⟩ := splitsAux_snd_mem rd' c rest p hp
      have hxdigit : isAsciiDigit x = true := by
        rcases hx with rfl | hx
        · exact hrd x (List.mem_cons_self _ _)
        · exact hrd x (List.mem_cons_of_mem _ hx)
      have hxne : x ≠ '.' := by
        intro hcon
        subst hcon
        simp [isAsciiDigit] at hxdigit
      rw [hxt]
      split
      · rename_i heq
        injection heq with h1 _
        exact absurd h1 hxne
      · rfl
    rw [htail]
    cases rest with
    | nil => rfl
    | cons r0 rt =>
      by_cases hr0 : r0 = '.'
      · subst hr0
        show (match g ((c :: rd').reverse) rt with
          | some b => some b
          | none => (none : Option β)) = g ((c :: rd').reverse) rt
        cases hval : g ((c :: rd').reverse) rt with
        | none => rfl
        | some b => rfl
      · have hhead : (match (r0 :: rt : List Char) with
            | '.' :: t => g ((c :: rd').reverse) t
            | _ => none) = (none : Option β) := by
          split
          · rename_i heq
            injection heq with h1 _
            exact absurd h1 hr0
          · rfl
        rw [hhead]
        show (none : Option β) =
          (match (c :: rd' : List Char), (r0 :: rt : List Char) with
           | _ :: _, '.' :: t => g ((c :: rd').reverse) t
           | _, _ => none)
        split
        · rename_i heq
          injection heq with h1 _
          exact absurd h1 hr0
        · rfl

lemma findSome_splitsAux_lookahead {β : Type} (out : List Char → β) :
    ∀ (rd rest : List Char), (∀ c ∈ rd, isAsciiDigit c = true) →
      ((splitsAux rd rest).findSome? fun p =>
        match p.2 with
        | '.' :: _ => none
        | _ => some (out p.1)) =
      (match rd, rest with
       | [], _ => none
       | _ :: [], '.' :: _ => none
       | _ :: c1 :: rd'', '.' :: _ => some (out ((c1 :: rd'').reverse))
       | _ :: _, _ => some (out rd.reverse)) := by
  intro rd rest hrd
  cases rd with
  | nil => simp [splitsAux]
  | cons c rd' =>
    rw [show splitsAux (c :: rd') rest =
      (((c :: rd').reverse), rest) :: splitsAux rd' (c :: rest) from rfl]
    rw [List.findSome?_cons]
    cases rest with
    | nil =>
      trans (some (out ((c :: rd').reverse)))
      · rfl
      · split
        · rename_i heq; simp at heq
        · rename_i heq; simp at heq
        · rename_i heq; simp at heq
        · rfl
    | cons r0 rt =>
      by_cases hr0 : r0 = '.'
      · subst hr0
        cases rd' with
        | nil => rfl
        | cons c1 rd'' =>
          have hcdigit : isAsciiDigit c = true := hrd c (List.mem_cons_self _ _)
          have hcne : c ≠ '.' := by
            intro hcon; subst hcon; simp [isAsciiDigit] at hcdigit
          rw [show splitsAux (c1 :: rd'') (c :: '.' :: rt) =
            (((c1 :: rd'').reverse), c :: '.' :: rt) ::
              splitsAux rd'' (c1 :: c :: '.' :: rt) from rfl]
          rw [List.findSome?_cons]
          have hhead : (match (c :: '.' :: rt : List Char) with
              | '.' :: _ => (none : Option β)
              | _ => some (out ((c1 :: rd'').reverse))) =
              some (out ((c1 :: rd'').reverse)) := by
            split
            · rename_i heq
              injection heq with h1 _
              exact absurd h1 hcne
            · rfl
          rw [hhead]
          rfl
      · have hhead : (match (r0 :: rt : List Char) with
            | '.' :: _ => (none : Option β)
            | _ => some (out ((c :: rd').reverse))) =
            some (out ((c :: rd').reverse)) := by
          split
          · rename_i heq
            injection heq with h1 _
            exact absurd h1 hr0
          · rfl
        rw [hhead]
        trans (some (out ((c :: rd').reverse)))
        · rfl
        · split
          · rename_i heq; simp at heq
          · rename_i heq
            injection heq with h1 _
            exact absurd h1 hr0
          · rename_i heq
            injection heq with h1 _
            exact absurd h1 hr0
          · rfl

lemma takeWhile_digits (l : List Char) :
    ∀ c ∈ l.takeWhile isAsciiDigit, isAsciiDigit c = true :=
  fun _ hc => List.mem_takeWhile_imp hc

lemma findSome_run_dot {β : Type} (g : List Char → List Char → Option β) :
    ∀ (run rest : List Char), (∀ c ∈ run, isAsciiDigit c = true) →
      ((splitsAux run.reverse rest).findSome? fun p =>
        match p.2 with
        | '.' :: t => g p.1 t
        | _ => none) =
      (match run, rest with
       | [], _ => none
       | r, '.' :: t => g r t
       | _, _ => none) := by
  intro run rest hrd
  rw [findSome_splitsAux_dot g run.reverse rest
    (fun c hc => hrd c (List.mem_reverse.mp hc))]
  cases run with
  | nil =>
    trans (none : Option β)
    · split <;> first | rfl | simp_all
    · split <;> first | rfl | simp_all
  | cons a run' =>
    obtain ⟨b, rb, hrev⟩ : ∃ b rb, (a :: run').reverse = b :: rb := by
      cases hr : (a :: run').reverse with
      | nil => simp at hr
      | cons b rb => exact ⟨b, rb, rfl⟩
    rw [hrev]
    cases rest with
    | nil => rfl
    | cons r0 rt =>
      by_cases hr0 : r0 = '.'
      · subst hr0
        show g ((b :: rb).reverse) rt = g (a :: run') rt
        rw [← hrev, List.reverse_reverse]
      · trans (none : Option β)
        · split <;> first | rfl | simp_all
        · split <;> first | rfl | simp_all

lemma findSome_run_lookahead {β : Type} (out : List Char → β) :
    ∀ (run rest : List Char), (∀ c ∈ run, isAsciiDigit c = true) →
      ((splitsAux run.reverse rest).findSome? fun p =>
        match p.2 with
        | '.' :: _ => none
        | _ => some (out p.1)) =
      (match run, rest with
       | [], _ => none
       | _ :: [], '.' :: _ => none
       | c0 :: c1 :: rs, '.' :: _ => some (out ((c0 :: c1 :: rs).dropLast))
       | r, _ => some (out r)) := by
  intro run rest hrd
  rw [findSome_splitsAux_lookahead out run.reverse rest
    (fun c hc => hrd c (List.mem_reverse.mp hc))]
  cases run with
  | nil =>
    trans (none : Option β)
    · split <;> first | rfl | simp_all
    · split <;> first | rfl | simp_all
  | cons a run' =>
    cases run' with
    | nil =>
      cases rest with
      | nil => rfl
      | cons r0 rt =>
        by_cases hr0 : r0 = '.'
        · subst hr0
          rfl
        · trans (some (out ([a] : List Char)))
          · split <;> first | rfl | simp_all
          · split <;> first | rfl | simp_all
    | cons a2 run'' =>
      obtain ⟨b, b1, rb2, hrev⟩ :
          ∃ b b1 rb2, (a :: a2 :: run'').reverse = b :: b1 :: rb2 := by
        cases hr : (a :: a2 :: run'').reverse with
        | nil => simp at hr
        | cons b tl =>
          cases tl with
          | nil =>
            have hlen := congrArg List.length hr
            simp at hlen
          | cons b1 rb2 => exact ⟨b, b1, rb2, rfl⟩
      rw [hrev]
      have hdrop : (b1 :: rb2).reverse = (a :: a2 :: run'').dropLast := by
        have h1 : (a :: a2 :: run'').reverse.tail = b1 :: rb2 := by
          rw [hrev]
          rfl
        rw [List.tail_reverse] at h1
        rw [← h1, List.reverse_reverse]
      cases rest with
      | nil =>
        show some (out ((b :: b1 :: rb2).reverse)) = some (out (a :: a2 :: run''))
        rw [← hrev, List.reverse_reverse]
      | cons r0 rt =>
        by_cases hr0 : r0 = '.'
        · subst hr0
          show some (out ((b1 :: rb2).reverse)) =
            some (out ((a :: a2 :: run'').dropLast))
          rw [hdrop]
        · trans (some (out (a :: a2 :: run'')))
          · split
            <;> first
              | (show some (out ((b :: b1 :: rb2).reverse)) =
                    some (out (a :: a2 :: run''))
                 rw [← hrev, List.reverse_reverse])
              | simp_all
          · split <;> first | rfl | simp_all

lemma mvLevel3_eq_spec (r1 r2 t2 : List Char) :
    mvLevel3 r1 r2 t2 = specLevel3 r1 r2 t2 := by
  unfold mvLevel3 digitSplits specLevel3
  exact findSome_run_lookahead (mvOut r1 r2) (t2.takeWhile isAsciiDigit)
    (t2.drop (t2.takeWhile isAsciiDigit).length) (takeWhile_digits t2)

lemma mvLevel2_eq_spec (r1 t1 : List Char) :
    mvLevel2 r1 t1 = specLevel2 r1 t1 := by
  unfold mvLevel2 digitSplits specLevel2
  rw [findSome_run_dot (mvLevel3 r1) (t1.takeWhile isAsciiDigit)
    (t1.drop (t1.takeWhile isAsciiDigit).length) (takeWhile_digits t1)]
  have h3 : mvLevel3 r1 = specLevel3 r1 :=
    funext fun r2 => funext fun t2 => mvLevel3_eq_spec r1 r2 t2
  rw [h3]

lemma matchVersionTriple_eq_spec (l : List Char) :
    matchVersionTriple l = specLeadingVersionToken l := by
  unfold matchVersionTriple digitSplits specLeadingVersionToken
  rw [findSome_run_dot mvLevel2 (l.takeWhile isAsciiDigit)
    (l.drop (l.takeWhile isAsciiDigit).length) (takeWhile_digits l)]
  have h2 : mvLevel2 = specLevel2 :=
    funext fun r1 => funext fun t1 => mvLevel2_eq_spec r1 t1
  rw [h2]

/-- Claim C7 (amended).  For input whose trimmed form begins with the
program-header token, `detectVersionFromSource` succeeds exactly when
the inner content begins with a `\d+.\d+.\d+` token under the regex's
greedy-with-backtracking semantics (captured by
`specLeadingVersionToken`): the first two digit groups are maximal runs
each followed by a dot, and the third group is the maximal run when no
dot follows it, or that run shortened by its final digit when a dot
follows (requiring at least two digits).  On success it returns exactly
the captured triple; otherwise it fails with the typed `ParseError` —
never a silent fallback to the default.  In particular
`"(program abc (...))"` fails. -/
theorem detectVersion_header_characterization :
    (∀ source : List Char,
      beginsWith (jsTrim source) (("(program").toList) = true →
      (∀ d1 d2 d3,
        specLeadingVersionToken (innerContent source) = some (d1, d2, d3) →
        detectVersionFromSource source =
          .ok ⟨digitsToNat d1, digitsToNat d2, digitsToNat d3⟩) ∧
      (specLeadingVersionToken (innerContent source) = none →
        detectVersionFromSource source = .error ⟨versionUnreadableMsg⟩)) ∧
    detectVersionFromSource (("(program abc (...))").toList) =
      .error ⟨versionUnreadableMsg⟩ := by
  constructor
  · intro source hb
    constructor
    · intro d1 d2 d3 hspec
      simp only [detectVersionFromSource]
      rw [if_pos hb, matchVersionTriple_eq_spec, hspec]
    · intro hspec
      simp only [detectVersionFromSource]
      rw [if_pos hb, matchVersionTriple_eq_spec, hspec]
  · rfl

/-- Witness for C7's theorem: the backtracking match on
`"(program 1.2.33.x ())"` captures `1.2.3` (the third run `33` is
shortened by one digit to satisfy the lookahead). -/
theorem detectVersion_header_characterization_witness :
    detectVersionFromSource (("(program 1.2.33.x ())").toList) =
      .ok ⟨digitsToNat (("1").toList), digitsToNat (("2").toList),
        digitsToNat (("3").toList)⟩ ∧
    detectVersionFromSource (("(program abc (...))").toList) =
      .error ⟨versionUnreadableMsg⟩ :=
  ⟨(detectVersion_header_characterization.1 _ (by decide)).1
      (("1").toList) (("2").toList) (("3").toList) (by decide),
    detectVersion_header_characterization.2⟩

/-- Counterexample to claim C7 as stated: on
`"(program 1.2.3.x ())"` the inner content `"1.2.3.x ()"` does begin
with a token of shape `\d+.\d+.\d+` (namely `1.2.3`) that is not
followed by a further dot-digit (it is followed by `.x`), so the claim
predicts success with version 1.2.3 — yet the code's regex, whose
lookahead rejects any following dot and cannot backtrack within the
one-digit third group, finds no match and the call fails. -/
theorem detectVersion_claim_cex :
    claimVersionCond (innerContent (("(program 1.2.3.x ())").toList)) ∧
    detectVersionFromSource (("(program 1.2.3.x ())").toList) =
      .error ⟨versionUnreadableMsg⟩ := by
  constructor
  · refine ⟨(("1").toList), (("2").toList), (("3").toList), ((".x ()").toList),
      ?_, ?_, ?_, ?_, ?_, ?_, ?_, ?_⟩ <;> decide
  · rfl
